import Mathlib

/-!
Shallow embedding of `src/service/scrape_supercross.py` (SupercrossLive
results scraper).  Text is modelled as `List Char`; documents are modelled
in their parsed form (the anchor list, the table structures and the visible
text that BeautifulSoup would produce), and the scraper's own logic —
URL normalisation, query-string parsing, entity discovery, the table-first
results parser and the text fallback parser — is translated function by
function from the source.  Python operations that can raise (list indexing,
`int()`, `urlsplit`'s invalid-IPv6 check) are additionally modelled in an
`Except` monad so that "never raises" claims can be settled.
-/

set_option autoImplicit false

namespace Supercross

/-- Python text is modelled as a list of characters. -/
abbrev Text := List Char

/-- Models Python's `\s` / `str.strip` whitespace class for the ASCII range. -/
def isPySpace (c : Char) : Bool :=
  c = ' ' || c = '\t' || c = '\n' || c = '\r' || c = Char.ofNat 11 || c = Char.ofNat 12

/-- Models `str.strip()`: drop whitespace from both ends. -/
def pyStrip (s : Text) : Text :=
  ((s.dropWhile isPySpace).reverse.dropWhile isPySpace).reverse

/-- Auxiliary for `normalize_ws`: replaces each maximal whitespace run by a
single space, as `re.sub(r"\s+", " ", s)` does.  The boolean records whether a
replacement space is pending before the next non-whitespace character. -/
def squeezeWsAux : Bool → Text → Text
  | _, [] => []
  | pend, c :: rest =>
    if isPySpace c then squeezeWsAux true rest
    else if pend then ' ' :: c :: squeezeWsAux false rest
    else c :: squeezeWsAux false rest

/-- Models `normalize_ws`: `re.sub(r"\s+", " ", s).strip()`. -/
def normalize_ws (s : Text) : Text :=
  pyStrip (squeezeWsAux false s)

/-- Models `str.upper()` for the ASCII range. -/
def toUpperT (s : Text) : Text := s.map Char.toUpper

/-- Models `str.lower()` for the ASCII range. -/
def toLowerT (s : Text) : Text := s.map Char.toLower

/-- Models `str.startswith(p)`. -/
def startsWithT (p s : Text) : Bool :=
  match p, s with
  | [], _ => true
  | _ :: _, [] => false
  | a :: ps, b :: ss => a = b && startsWithT ps ss

/-- Models Python's substring test `needle in hay` (case-sensitive). -/
def hasSub (hay needle : Text) : Bool :=
  if startsWithT needle hay then true
  else
    match hay with
    | [] => false
    | _ :: t => hasSub t needle

/-- Splits a text at every occurrence of `sep`, keeping empty pieces, like
`str.split(sep)`. -/
def splitOnChar (sep : Char) : Text → List Text
  | [] => [[]]
  | c :: rest =>
    match splitOnChar sep rest with
    | [] => if c = sep then [[], []] else [[c]]
    | h :: t => if c = sep then [] :: h :: t else (c :: h) :: t

/-- Splits a text at the first occurrence of `sep`, if any, like
`str.split(sep, 1)`. -/
def splitFirst (sep : Char) : Text → Option (Text × Text)
  | [] => none
  | c :: rest =>
    if c = sep then some ([], rest)
    else (splitFirst sep rest).map (fun p => (c :: p.1, p.2))

/-- Auxiliary for `splitWs`; the accumulator holds the current token reversed. -/
def splitWsAux (acc : Text) : Text → List Text
  | [] => if acc = [] then [] else [acc.reverse]
  | c :: rest =>
    if isPySpace c then
      if acc = [] then splitWsAux [] rest
      else acc.reverse :: splitWsAux [] rest
    else splitWsAux (c :: acc) rest

/-- Models `str.split()` with no argument: split on whitespace runs, dropping
empty tokens. -/
def splitWs (s : Text) : List Text := splitWsAux [] s

/-- Joins texts with a single separator character, like `sep.join(parts)`. -/
def joinSep (sep : Char) : List Text → Text
  | [] => []
  | [s] => s
  | s :: rest => s ++ sep :: joinSep sep rest

/-- Auxiliary for `pySplitlines`; the accumulator holds the current line
reversed. -/
def splitlinesAux (acc : Text) : Text → List Text
  | [] => if acc = [] then [] else [acc.reverse]
  | '\r' :: '\n' :: rest => acc.reverse :: splitlinesAux [] rest
  | c :: rest =>
    if c = '\n' || c = '\r' then acc.reverse :: splitlinesAux [] rest
    else splitlinesAux (c :: acc) rest

/-- Models `str.splitlines()` for the line boundaries that occur in this
scraper's flattened text (`\n`, `\r`, `\r\n`). -/
def pySplitlines (s : Text) : List Text := splitlinesAux [] s

/-- Models `re.fullmatch(r"\d+", s)`: a non-empty string of decimal digits. -/
def isDigits (s : Text) : Bool := !s.isEmpty && s.all Char.isDigit

/-- Models `int(s)` on strings of decimal digits. -/
def natOfDigits (s : Text) : Nat :=
  s.foldl (fun n c => n * 10 + (c.toNat - 48)) 0

/-- The two kinds of Python exception this program's core could raise:
`ValueError` (from `int()` and `urlsplit`'s invalid-IPv6 check) and
`IndexError` (from list indexing). -/
inductive PyErr
  | valueError
  | indexError
deriving DecidableEq

/-- The result of `urllib.parse.urlsplit`: scheme, netloc, path, query and
fragment components. -/
structure UrlParts where
  scheme : Text
  netloc : Text
  path : Text
  query : Text
  fragment : Text
deriving DecidableEq

/-- Characters allowed after the first letter of a URL scheme. -/
def isSchemeChar (c : Char) : Bool := c.isAlphanum || c = '+' || c = '-' || c = '.'

/-- Models `urlsplit`'s scheme detection: the text before the first `:` must
start with a letter and continue with alphanumerics or `+-.`; otherwise the
URL has no scheme. -/
def splitScheme (url : Text) : Option (Text × Text) :=
  match splitFirst ':' url with
  | none => none
  | some (pre, post) =>
    match pre with
    | [] => none
    | c :: cs => if c.isAlpha && cs.all isSchemeChar then some (toLowerT (c :: cs), post) else none

/-- A character that does not terminate the netloc component. -/
def notNetlocDelim (c : Char) : Bool := !(c = '/' || c = '?' || c = '#')

/-- Models `urlsplit`'s netloc extraction: if the remainder after the scheme
starts with `//`, the netloc runs up to the next `/`, `?` or `#`. -/
def splitNetloc (rest : Text) : Text × Text :=
  if rest.take 2 = ['/', '/'] then
    ((rest.drop 2).takeWhile notNetlocDelim, (rest.drop 2).dropWhile notNetlocDelim)
  else ([], rest)

/-- Models `urlsplit`'s invalid-IPv6 bracket check: a netloc containing `[`
without `]` (or vice versa) raises `ValueError`. -/
def netlocOk (netloc : Text) : Bool := netloc.contains '[' == netloc.contains ']'

/-- Models `urllib.parse.urlsplit` without its error case: scheme, then netloc,
then the fragment is split off at the first `#`, then the query at the first
`?`.  Percent-decoding does not occur in `urlsplit`; the `params` component
(split at `;`) is not modelled since no input of this scraper uses it. -/
def urlsplitCore (url : Text) : UrlParts :=
  let sr := match splitScheme url with
    | some p => p
    | none => (([] : Text), url)
  let nr := splitNetloc sr.2
  let rf := match splitFirst '#' nr.2 with
    | some p => p
    | none => (nr.2, ([] : Text))
  let pq := match splitFirst '?' rf.1 with
    | some p => p
    | none => (rf.1, ([] : Text))
  ⟨sr.1, nr.1, pq.1, pq.2, rf.2⟩

/-- Models `urllib.parse.urlsplit` including the `ValueError` raised on a
netloc with mismatched square brackets. -/
def urlsplitE (url : Text) : Except PyErr UrlParts :=
  if netlocOk (urlsplitCore url).netloc then .ok (urlsplitCore url) else .error .valueError

/-- Models `urllib.parse.urlunsplit`. -/
def urlunsplit (p : UrlParts) : Text :=
  let url := p.path
  let url :=
    if !p.netloc.isEmpty || url.take 2 = ['/', '/'] then
      '/' :: '/' :: p.netloc ++ (if url ≠ [] ∧ url.head? ≠ some '/' then '/' :: url else url)
    else url
  let url := if !p.scheme.isEmpty then p.scheme ++ ':' :: url else url
  let url := if !p.query.isEmpty then url ++ '?' :: p.query else url
  if !p.fragment.isEmpty then url ++ '#' :: p.fragment else url

/-- Models `urljoin`'s relative-path merge: the base path's segments minus the
last one, followed by the reference path's segments, with empty interior
segments filtered out, joined by `/`.  Dot-segment resolution is not modelled
(no href of this page family contains `.` or `..` segments). -/
def mergePath (bpath path : Text) : Text :=
  let bparts := splitOnChar '/' bpath
  let bparts := if bparts.getLastD [] = [] then bparts else bparts.dropLast
  let segs := bparts ++ splitOnChar '/' path
  let segs :=
    match segs with
    | [] => []
    | [s] => [s]
    | s :: rest => s :: ((rest.dropLast.filter (fun x => !x.isEmpty)) ++ [rest.getLastD []])
  joinSep '/' segs

/-- The branch logic of `urljoin` once base and reference are split (every
branch of the Python source past the two `urlparse` calls is non-raising):
keep the reference unchanged on a scheme mismatch; keep its own netloc if it
has one; a reference with an empty path keeps the base path and, when its own
query is empty, the base query; otherwise an absolute reference path is used
as is and a relative one is merged against the base path. -/
def urljoinParts (bp up0 : UrlParts) (url : Text) : Text :=
  let scheme := if up0.scheme = [] then bp.scheme else up0.scheme
  if scheme ≠ bp.scheme then url
  else if up0.netloc ≠ [] then
    urlunsplit ⟨scheme, up0.netloc, up0.path, up0.query, up0.fragment⟩
  else if up0.path = [] then
    urlunsplit ⟨scheme, bp.netloc, bp.path, if up0.query = [] then bp.query else up0.query,
      up0.fragment⟩
  else
    urlunsplit ⟨scheme, bp.netloc,
      if up0.path.head? = some '/' then up0.path else mergePath bp.path up0.path,
      up0.query, up0.fragment⟩

/-- Models `urllib.parse.urljoin`, including the `ValueError` it propagates
from `urlsplit` on a reference with mismatched IPv6 brackets.  The
`uses_relative` / `uses_netloc` membership tests are modelled as true, which
is exact for this scraper (every base URL has scheme `https`, which is in
both lists). -/
def urljoinE (base url : Text) : Except PyErr Text :=
  if base = [] then .ok url
  else if url = [] then .ok base
  else
    match urlsplitE base, urlsplitE url with
    | .ok bp, .ok up0 => .ok (urljoinParts bp up0 url)
    | .error e, _ => .error e
    | .ok _, .error e => .error e

/-- The total version of `urljoin` used by the pure embedding; on the error
case (which the never-raises analysis treats separately) it returns the empty
text. -/
def urljoin (base url : Text) : Text :=
  match urljoinE base url with
  | .ok v => v
  | .error _ => []

/-- Models `+` decoding inside `parse_qsl` (percent-decoding is not modelled;
no URL of this page family contains percent-escapes). -/
def plusToSpace (s : Text) : Text := s.map (fun c => if c = '+' then ' ' else c)

/-- Models `urllib.parse.parse_qsl` with its defaults (`keep_blank_values`
false, separator `&`): empty pairs, pairs without `=` and pairs with an empty
value are all skipped. -/
def parse_qsl (qs : Text) : List (Text × Text) :=
  (splitOnChar '&' qs).filterMap (fun nv =>
    if nv = [] then none
    else
      match splitFirst '=' nv with
      | none => none
      | some (n, v) => if v = [] then none else some (plusToSpace n, plusToSpace v))

/-- Appends one value to a key's list in the insertion-ordered dictionary that
`parse_qs` builds. -/
def qsInsert (d : List (Text × List Text)) (k v : Text) : List (Text × List Text) :=
  match d with
  | [] => [(k, [v])]
  | (k', vs) :: rest => if k' = k then (k', vs ++ [v]) :: rest else (k', vs) :: qsInsert rest k v

/-- Models `urllib.parse.parse_qs`: the pairs of `parse_qsl` grouped into an
insertion-ordered dictionary from key to list of values. -/
def parse_qs (qs : Text) : List (Text × List Text) :=
  (parse_qsl qs).foldl (fun d p => qsInsert d p.1 p.2) []

/-- Models dictionary lookup `q.get(k)` on a `parse_qs` result. -/
def qsGet : List (Text × List Text) → Text → Option (List Text)
  | [], _ => none
  | (k0, vs) :: rest, k => if k0 = k then some vs else qsGet rest k

/-- Models `q.get(k, [""])[0]`: the first value for a present key, `""` for an
absent one (`parse_qs` value lists are never empty, so `headD` is exact). -/
def qFirstD (d : List (Text × List Text)) (k : Text) : Text :=
  match qsGet d k with
  | some vs => vs.headD []
  | none => []

/-- Models `q.get(k, [None])[0]`: the first value for a present key, `None`
for an absent one. -/
def qFirstOpt (d : List (Text × List Text)) (k : Text) : Option Text :=
  match qsGet d k with
  | some vs => vs.head?
  | none => none

/-- The constant `BASE` of the scraper. -/
def BASE : Text := "https://results.supercrosslive.com".data

/-- The constant `EVENTS_URL` of the scraper. -/
def EVENTS_URL : Text := "https://results.supercrosslive.com/events/".data

/-- The constant `RESULTS_ROOT` of the scraper. -/
def RESULTS_ROOT : Text := "https://results.supercrosslive.com/results/".data

/-- An anchor tag as BeautifulSoup delivers it to the discovery functions:
its `href` attribute value and its visible text (the result of
`a.get_text(" ", strip=True)`). -/
structure Anchor where
  href : Text
  text : Text
deriving DecidableEq

/-- The dataclass `EventRef`. -/
structure EventRef where
  event_id : Text
  name : Text
  url : Text
deriving DecidableEq

/-- The dataclass `SessionRef`. -/
structure SessionRef where
  race_result_id : Text
  session_name : Text
  url : Text
deriving DecidableEq

/-- Auxiliary for `dedupeBy`, mirroring the `uniq.setdefault` loop: `seen`
holds the keys already inserted. -/
def dedupeByAux {α : Type} (key : α → Text) (seen : List Text) : List α → List α
  | [] => []
  | x :: rest =>
    if key x ∈ seen then dedupeByAux key seen rest
    else x :: dedupeByAux key (key x :: seen) rest

/-- Models the de-duplication loop
`uniq = {}; for e in found: uniq.setdefault(e.key, e); list(uniq.values())`:
keep the first occurrence of each key, in first-occurrence order. -/
def dedupeBy {α : Type} (key : α → Text) (l : List α) : List α :=
  dedupeByAux key [] l

/-- The literal `"p"`. -/
def sP : Text := "p".data

/-- The literal `"id"`. -/
def sId : Text := "id".data

/-- The literal `"view_event"`. -/
def sViewEvent : Text := "view_event".data

/-- The literal `"view_race_result"`. -/
def sViewRaceResult : Text := "view_race_result".data

/-- The literal `"event_"` used to synthesize event names. -/
def sEventPre : Text := "event_".data

/-- The literal `"race_result_"` used to synthesize session names. -/
def sRacePre : Text := "race_result_".data

/-- The per-anchor body of `discover_events`: resolve the href against
`EVENTS_URL`, require the query parameter `p` to equal `"view_event"` after
stripping and lower-casing, require a non-empty `id`, and build the
`EventRef` with the whitespace-normalized anchor text (or a synthesized
name). -/
def eventOfHref (a : Anchor) (href : Text) : Option EventRef :=
  let q := parse_qs (urlsplitCore href).query
  let pval := toLowerT (pyStrip (qFirstD q sP))
  if pval ≠ sViewEvent then none
  else
    match qFirstOpt q sId with
    | none => none
    | some event_id =>
      if event_id = [] then none
      else
        let name := normalize_ws a.text
        some ⟨event_id, if name = [] then sEventPre ++ event_id else name, href⟩

/-- The per-anchor body of `discover_events`, split at the resolved href. -/
def eventOfAnchor (a : Anchor) : Option EventRef :=
  let href_raw := pyStrip a.href
  if href_raw = [] then none
  else eventOfHref a (urljoin EVENTS_URL href_raw)

/-- Models `discover_events`: collect an `EventRef` per matching anchor in
document order, then de-duplicate by `event_id` keeping first occurrences. -/
def discover_events (anchors : List Anchor) : List EventRef :=
  dedupeBy (fun e => e.event_id) (anchors.filterMap eventOfAnchor)

/-- Models the href normalisation inside `discover_sessions`: an href
beginning with `?` is joined against `RESULTS_ROOT`; any other href is joined
against `BASE + "/"`. -/
def resolve_session_href (href_raw : Text) : Text :=
  if startsWithT [ '?' ] href_raw then urljoin RESULTS_ROOT href_raw
  else urljoin (BASE ++ [ '/' ]) href_raw

/-- The per-anchor body of `discover_sessions`: normalize the href, apply the
fast substring pre-filter for `"view_race_result"`, then test the `p` query
parameter case-insensitively and require a non-empty `id`. -/
def sessionOfHref (a : Anchor) (href : Text) : Option SessionRef :=
  if !hasSub href sViewRaceResult then none
  else
    let q := parse_qs (urlsplitCore href).query
    let pval := toLowerT (pyStrip (qFirstD q sP))
    if pval ≠ sViewRaceResult then none
    else
      match qFirstOpt q sId with
      | none => none
      | some rrid =>
        if rrid = [] then none
        else
          let session_name := normalize_ws a.text
          some ⟨rrid, if session_name = [] then sRacePre ++ rrid else session_name, href⟩

/-- The per-anchor body of `discover_sessions`, split at the resolved href. -/
def sessionOfAnchor (a : Anchor) : Option SessionRef :=
  let href_raw := pyStrip a.href
  if href_raw = [] then none
  else sessionOfHref a (resolve_session_href href_raw)

/-- Models `discover_sessions`: collect a `SessionRef` per matching anchor in
document order, then de-duplicate by `race_result_id` keeping first
occurrences. -/
def discover_sessions (anchors : List Anchor) : List SessionRef :=
  dedupeBy (fun s => s.race_result_id) (anchors.filterMap sessionOfAnchor)

/-- A `<table>` element as the parser inspects it: a sequence of `<thead>`,
`<tbody>` and loose `<tr>` children in document order, each row given as the
cell texts (`x.get_text(" ", strip=True)` of its `th`/`td` cells). -/
inductive TableSection
  | thead (rows : List (List Text))
  | tbody (rows : List (List Text))
  | tr (cells : List Text)
deriving DecidableEq

/-- A table is its section list. -/
structure HtmlTable where
  sections : List TableSection
deriving DecidableEq

/-- Models `t.find("thead")`: the rows of the first `<thead>` section. -/
def findThead (t : HtmlTable) : Option (List (List Text)) :=
  t.sections.findSome? (fun s =>
    match s with
    | .thead rs => some rs
    | _ => none)

/-- Models `t.find("tbody")`: the rows of the first `<tbody>` section. -/
def findTbody (t : HtmlTable) : Option (List (List Text)) :=
  t.sections.findSome? (fun s =>
    match s with
    | .tbody rs => some rs
    | _ => none)

/-- The rows a section contributes to `find_all("tr")`. -/
def sectionRows : TableSection → List (List Text)
  | .thead rs => rs
  | .tbody rs => rs
  | .tr cells => [cells]

/-- Models `t.find_all("tr")`: every row of the table in document order. -/
def allTrs (t : HtmlTable) : List (List Text) :=
  (t.sections.map sectionRows).flatten

/-- Models the header derivation of `parse_race_results_table_first`: the
normalized upper-cased cells of the `<thead>` if one exists (flattened across
its rows, as `thead.find_all(["th", "td"])` does), otherwise those of the
first `<tr>`, otherwise the empty header. -/
def tableHeader (t : HtmlTable) : List Text :=
  match findThead t with
  | some rs => rs.flatten.map (fun c => toUpperT (normalize_ws c))
  | none =>
    match (allTrs t).head? with
    | some r => r.map (fun c => toUpperT (normalize_ws c))
    | none => []

/-- Models the dict comprehension `{h: i for i, h in enumerate(header)}`:
lookup returns the index of the last occurrence of the name, as later dict
assignments overwrite earlier ones. -/
def colMap (header : List Text) (k : Text) : Option Nat :=
  match header with
  | [] => none
  | h :: rest =>
    match colMap rest k with
    | some j => some (j + 1)
    | none => if h = k then some 0 else none

/-- The literal `"POS"`. -/
def sPOS : Text := "POS".data

/-- Models the nested helper `get_cell(cells, *names)`: scan the alias names
in order; for the first one that is in the column map with an index inside
the cell list, return that cell, normalizing an empty cell to `None`; if an
alias is in the map but its index is out of range, fall through to the next
alias. -/
def get_cell (header : List Text) (cells : List Text) : List Text → Option Text
  | [] => none
  | n :: rest =>
    match colMap header (toUpperT n) with
    | some i =>
      if h : i < cells.length then
        let v := cells.get ⟨i, h⟩
        if v = [] then none else some v
      else get_cell header cells rest
    | none => get_cell header cells rest

/-- A result row on the table path, the dict built by
`parse_race_results_table_first`. -/
structure TableRow where
  pos : Nat
  number : Option Text
  rider : Option Text
  bike : Option Text
  best_lap : Option Text
  time : Option Text
  gap : Option Text
  points : Option Text
  raw : List Text
deriving DecidableEq

/-- The alias list `("#", "NUM", "NO", "NUMBER")`. -/
def numberAliases : List Text := [ "#".data, "NUM".data, "NO".data, "NUMBER".data ]

/-- The alias list `("RIDER", "NAME")`. -/
def riderAliases : List Text := [ "RIDER".data, "NAME".data ]

/-- The alias list `("BIKE",)`. -/
def bikeAliases : List Text := [ "BIKE".data ]

/-- The alias list `("BEST LAP", "BEST")`. -/
def bestLapAliases : List Text := [ "BEST LAP".data, "BEST".data ]

/-- The alias list `("TIME", "TOTAL TIME")`. -/
def timeAliases : List Text := [ "TIME".data, "TOTAL TIME".data ]

/-- The alias list `("GAP", "INTERVAL")`. -/
def gapAliases : List Text := [ "GAP".data, "INTERVAL".data ]

/-- The alias list `("POINTS", "PTS")`. -/
def pointsAliases : List Text := [ "POINTS".data, "PTS".data ]

/-- The per-`<tr>` body of the table parser's row loop: normalize the cell
texts, skip the row when it has no cells, require a `POS` cell that fully
matches `\d+` (otherwise skip the row), and build the row dict. -/
def parseRow (header : List Text) (tr : List Text) : Option TableRow :=
  let cells := tr.map normalize_ws
  if cells = [] then none
  else
    match get_cell header cells [sPOS] with
    | none => none
    | some pos_raw =>
      if !isDigits pos_raw then none
      else
        some
          { pos := natOfDigits pos_raw
            number := get_cell header cells numberAliases
            rider := get_cell header cells riderAliases
            bike := get_cell header cells bikeAliases
            best_lap := get_cell header cells bestLapAliases
            time := get_cell header cells timeAliases
            gap := get_cell header cells gapAliases
            points := get_cell header cells pointsAliases
            raw := cells }

/-- Models `tbody = t.find("tbody") or t` followed by `tbody.find_all("tr")`:
the rows scanned by the row loop. -/
def dataRows (t : HtmlTable) : List (List Text) :=
  match findTbody t with
  | some rs => rs
  | none => allTrs t

/-- The rows one table yields: the row loop over `dataRows`. -/
def parseTable (t : HtmlTable) : List TableRow :=
  (dataRows t).filterMap (parseRow (tableHeader t))

/-- Models the table loop of `parse_race_results_table_first`: skip a table
whose header is empty or lacks the literal `"POS"`; otherwise run the row
loop, returning its rows if at least one row survived and moving to the next
table otherwise. -/
def scanTables : List HtmlTable → Option (List TableRow)
  | [] => none
  | t :: rest =>
    let header := tableHeader t
    if header = [] ∨ sPOS ∉ header then scanTables rest
    else
      let results := parseTable t
      if results = [] then scanTables rest
      else some results

/-- A session document in its parsed form: the tables that
`soup.find_all("table")` yields, in document order, and the flattened visible
text that `soup.get_text("\n", strip=True)` yields. -/
structure Document where
  tables : List HtmlTable
  text : Text
deriving DecidableEq

/-- A result row on the text-fallback path, the dict built by
`parse_race_results_text_fallback`. -/
structure FallbackRow where
  pos : Nat
  number : Text
  rider_guess : Option Text
  line : Text
deriving DecidableEq

/-- The literal `"GENERATED BY"`. -/
def sGeneratedBy : Text := "GENERATED BY".data

/-- The literal `"LIVE SUPER"`. -/
def sLiveSuper : Text := "LIVE SUPER".data

/-- The literal `"RIDER"`. -/
def sRIDER : Text := "RIDER".data

/-- The literal `"NAME"`. -/
def sNAME : Text := "NAME".data

/-- The literal `"#"`. -/
def sHashMark : Text := "#".data

/-- The literal `"BIKE"`. -/
def sBIKE : Text := "BIKE".data

/-- The header-line test of the fallback parser: the uppercased line contains
`"POS"`, and `"RIDER"` or `"NAME"`, and `"#"` or `"BIKE"`. -/
def isHeaderLine (ln : Text) : Bool :=
  let up := toUpperT ln
  hasSub up sPOS && (hasSub up sRIDER || hasSub up sNAME) && (hasSub up sHashMark || hasSub up sBIKE)

/-- The footer test of the fallback parser: the uppercased line starts with
`"GENERATED BY"` or `"LIVE SUPER"`. -/
def isFooterLine (ln : Text) : Bool :=
  startsWithT sGeneratedBy (toUpperT ln) || startsWithT sLiveSuper (toUpperT ln)

/-- Models `re.match(r"^(\d+)\s+(\S+)\s+(.*)$", ln)`: the maximal leading
digit run, a whitespace run, the maximal following non-whitespace token,
another whitespace run, and the remaining text (greedy matching makes each of
the first four pieces maximal; if any required piece is empty the regex
cannot match, since shrinking an earlier maximal piece only re-exposes a
character the next piece rejects). -/
def matchRowLine (ln : Text) : Option (Text × Text × Text) :=
  let d := ln.takeWhile Char.isDigit
  let r1 := ln.dropWhile Char.isDigit
  if d = [] then none
  else
    let w1 := r1.takeWhile isPySpace
    let r2 := r1.dropWhile isPySpace
    if w1 = [] then none
    else
      let tok := r2.takeWhile (fun c => !isPySpace c)
      let r3 := r2.dropWhile (fun c => !isPySpace c)
      if tok = [] then none
      else
        let w2 := r3.takeWhile isPySpace
        let rest := r3.dropWhile isPySpace
        if w2 = [] then none else some (d, tok, rest)

/-- The per-line body of the fallback parser's data loop: on a regex match,
position is the leading integer, number the captured token, and the rider
guess joins the first two whitespace tokens of the remainder (or is `None`
when fewer than two exist). -/
def rowOfLine (ln : Text) : Option FallbackRow :=
  match matchRowLine ln with
  | none => none
  | some (d, num, rest) =>
    let tokens := splitWs rest
    let rider := if tokens.length ≥ 2 then some (joinSep ' ' (tokens.take 2)) else none
    some ⟨natOfDigits d, num, rider, ln⟩

/-- Models the fallback parser's scan of the lines after the header anchor:
stop at the first footer line, emit a row per matching line, skip
non-matching lines. -/
def fallbackScan : List Text → List FallbackRow
  | [] => []
  | ln :: rest =>
    if isFooterLine ln then []
    else
      match rowOfLine ln with
      | none => fallbackScan rest
      | some r => r :: fallbackScan rest

/-- Models the line preparation of the fallback parser:
`[normalize_ws(ln) for ln in text.splitlines() if normalize_ws(ln)]`. -/
def fallbackLines (text : Text) : List Text :=
  (pySplitlines text).filterMap (fun ln =>
    if normalize_ws ln = [] then none else some (normalize_ws ln))

/-- Models the header search loop
`for i, ln in enumerate(lines): if <header test>: header_idx = i; break`:
the index of the first header line, if any. -/
def findHeaderIdx : List Text → Option Nat
  | [] => none
  | ln :: rest =>
    if isHeaderLine ln then some 0 else (findHeaderIdx rest).map (fun i => i + 1)

/-- Models `parse_race_results_text_fallback`: empty text yields no rows;
otherwise find the first header line and scan the lines after it. -/
def parse_race_results_text_fallback (doc : Document) : List FallbackRow :=
  if doc.text = [] then []
  else
    let lines := fallbackLines doc.text
    match findHeaderIdx lines with
    | none => []
    | some header_idx => fallbackScan (lines.drop (header_idx + 1))

/-- A row of either parser path, as the mixed dict list the scraper returns. -/
inductive ResultRow
  | table (r : TableRow)
  | fallback (r : FallbackRow)
deriving DecidableEq

/-- Models `parse_race_results_table_first`: the first table whose header
contains `"POS"` and whose row loop yields at least one row wins; if no table
yields rows, the text fallback parses the same document. -/
def parse_race_results_table_first (doc : Document) : List ResultRow :=
  match scanTables doc.tables with
  | some rs => rs.map ResultRow.table
  | none => (parse_race_results_text_fallback doc).map ResultRow.fallback

/-- Models `extract_query_param`: the first value of the named parameter, or
`None` when the parameter is absent or `urlparse` raises (the `try/except`
catches everything). -/
def extract_query_param (url key : Text) : Option Text :=
  match urlsplitE url with
  | .error _ => none
  | .ok p =>
    match qsGet (parse_qs p.query) key with
    | some vals => vals.head?
    | none => none

/-- Models Python list indexing `l[i]`, raising `IndexError` out of range. -/
def listGetE {α : Type} : List α → Nat → Except PyErr α
  | [], _ => .error .indexError
  | x :: _, 0 => .ok x
  | _ :: xs, n + 1 => listGetE xs n

/-- Models `int(s)` with its `ValueError`, for the digit-only strings this
parser guards for (other accepted forms such as signs or surrounding
whitespace never reach an `int()` call here). -/
def pyIntE (s : Text) : Except PyErr Nat :=
  if isDigits s then .ok (natOfDigits s) else .error .valueError

/-- The `try` body of `extract_query_param` with its throwing operations
explicit; the surrounding function catches every exception. -/
def extract_query_param_body (url key : Text) : Except PyErr (Option Text) :=
  match urlsplitE url with
  | .error e => .error e
  | .ok p =>
    let vals :=
      match qsGet (parse_qs p.query) key with
      | some vs => vs
      | none => []
    if vals ≠ [] then
      match listGetE vals 0 with
      | .error e => .error e
      | .ok v => .ok (some v)
    else .ok none

/-- Models `extract_query_param` with throwing operations explicit: the
`except Exception` clause maps every raised error to `None`. -/
def extract_query_paramE (url key : Text) : Except PyErr (Option Text) :=
  match extract_query_param_body url key with
  | .ok v => .ok v
  | .error _ => .ok none

/-- The per-anchor body of `discover_events` with throwing operations
explicit: `urljoin` and `urlparse` may raise `ValueError`, and the `[0]`
indexing of `q.get("p", [""])[0]` and `q.get("id", [None])[0]` may raise
`IndexError` when the key is present (the defaults are non-empty lists, so
the absent-key case cannot raise). -/
def eventOfHrefE (a : Anchor) (href : Text) : Except PyErr (Option EventRef) :=
  match urlsplitE href with
      | .error e => .error e
      | .ok parts =>
        let q := parse_qs parts.query
        match ((match qsGet q sP with
               | some vals => listGetE vals 0
               | none => .ok []) : Except PyErr Text) with
        | .error e => .error e
        | .ok pv =>
          let pval := toLowerT (pyStrip pv)
          if pval ≠ sViewEvent then .ok none
          else
            match ((match qsGet q sId with
                   | some vals =>
                     (match listGetE vals 0 with
                      | .error e => .error e
                      | .ok v => .ok (some v))
                   | none => .ok none) : Except PyErr (Option Text)) with
            | .error e => .error e
            | .ok idv =>
              match idv with
              | none => .ok none
              | some event_id =>
                if event_id = [] then .ok none
                else
                  let name := normalize_ws a.text
                  .ok (some ⟨event_id, if name = [] then sEventPre ++ event_id else name, href⟩)

/-- The per-anchor body of `discover_events` with throwing operations
explicit, split at the resolved href. -/
def eventOfAnchorE (a : Anchor) : Except PyErr (Option EventRef) :=
  let href_raw := pyStrip a.href
  if href_raw = [] then .ok none
  else
    match urljoinE EVENTS_URL href_raw with
    | .error e => .error e
    | .ok href => eventOfHrefE a href

/-- The anchor loop of `discover_events` with throwing operations explicit. -/
def foundEventsE : List Anchor → Except PyErr (List EventRef)
  | [] => .ok []
  | a :: rest =>
    match eventOfAnchorE a with
    | .error e => .error e
    | .ok e? =>
      match foundEventsE rest with
      | .error e => .error e
      | .ok es =>
        match e? with
        | none => .ok es
        | some e => .ok (e :: es)

/-- Models `discover_events` with throwing operations explicit. -/
def discover_eventsE (anchors : List Anchor) : Except PyErr (List EventRef) :=
  match foundEventsE anchors with
  | .error e => .error e
  | .ok found => .ok (dedupeBy (fun e => e.event_id) found)

/-- The href normalisation of `discover_sessions` with the `ValueError` of
`urljoin` explicit. -/
def resolve_session_hrefE (href_raw : Text) : Except PyErr Text :=
  if startsWithT [ '?' ] href_raw then urljoinE RESULTS_ROOT href_raw
  else urljoinE (BASE ++ [ '/' ]) href_raw

/-- The per-anchor body of `discover_sessions` with throwing operations
explicit. -/
def sessionOfHrefE (a : Anchor) (href : Text) : Except PyErr (Option SessionRef) :=
  if !hasSub href sViewRaceResult then .ok none
  else
    match urlsplitE href with
        | .error e => .error e
        | .ok parts =>
          let q := parse_qs parts.query
          match ((match qsGet q sP with
                 | some vals => listGetE vals 0
                 | none => .ok []) : Except PyErr Text) with
          | .error e => .error e
          | .ok pv =>
            let pval := toLowerT (pyStrip pv)
            if pval ≠ sViewRaceResult then .ok none
            else
              match ((match qsGet q sId with
                     | some vals =>
                       (match listGetE vals 0 with
                        | .error e => .error e
                        | .ok v => .ok (some v))
                     | none => .ok none) : Except PyErr (Option Text)) with
              | .error e => .error e
              | .ok idv =>
                match idv with
                | none => .ok none
                | some rrid =>
                  if rrid = [] then .ok none
                  else
                    let session_name := normalize_ws a.text
                    .ok (some ⟨rrid,
                      if session_name = [] then sRacePre ++ rrid else session_name, href⟩)

/-- The per-anchor body of `discover_sessions` with throwing operations
explicit, split at the resolved href. -/
def sessionOfAnchorE (a : Anchor) : Except PyErr (Option SessionRef) :=
  let href_raw := pyStrip a.href
  if href_raw = [] then .ok none
  else
    match resolve_session_hrefE href_raw with
    | .error e => .error e
    | .ok href => sessionOfHrefE a href

/-- The anchor loop of `discover_sessions` with throwing operations
explicit. -/
def foundSessionsE : List Anchor → Except PyErr (List SessionRef)
  | [] => .ok []
  | a :: rest =>
    match sessionOfAnchorE a with
    | .error e => .error e
    | .ok s? =>
      match foundSessionsE rest with
      | .error e => .error e
      | .ok ss =>
        match s? with
        | none => .ok ss
        | some s => .ok (s :: ss)

/-- Models `discover_sessions` with throwing operations explicit. -/
def discover_sessionsE (anchors : List Anchor) : Except PyErr (List SessionRef) :=
  match foundSessionsE anchors with
  | .error e => .error e
  | .ok found => .ok (dedupeBy (fun s => s.race_result_id) found)

/-- `get_cell` with the list indexing `cells[col_map[k]]` explicit; the
source guards it with `col_map[k] < len(cells)`. -/
def get_cellE (header : List Text) (cells : List Text) : List Text → Except PyErr (Option Text)
  | [] => .ok none
  | n :: rest =>
    match colMap header (toUpperT n) with
    | some i =>
      if i < cells.length then
        match listGetE cells i with
        | .error e => .error e
        | .ok v => .ok (if v = [] then none else some v)
      else get_cellE header cells rest
    | none => get_cellE header cells rest

/-- The table parser's row body with throwing operations (`cells[...]`,
`int(pos_raw)`) explicit. -/
def parseRowE (header : List Text) (tr : List Text) : Except PyErr (Option TableRow) :=
  let cells := tr.map normalize_ws
  if cells = [] then .ok none
  else
    match get_cellE header cells [sPOS] with
    | .error e => .error e
    | .ok pos? =>
      match pos? with
      | none => .ok none
      | some pos_raw =>
        if !isDigits pos_raw then .ok none
        else
          match pyIntE pos_raw with
          | .error e => .error e
          | .ok pos =>
            match get_cellE header cells numberAliases with
            | .error e => .error e
            | .ok number =>
              match get_cellE header cells riderAliases with
              | .error e => .error e
              | .ok rider =>
                match get_cellE header cells bikeAliases with
                | .error e => .error e
                | .ok bike =>
                  match get_cellE header cells bestLapAliases with
                  | .error e => .error e
                  | .ok best_lap =>
                    match get_cellE header cells timeAliases with
                    | .error e => .error e
                    | .ok time =>
                      match get_cellE header cells gapAliases with
                      | .error e => .error e
                      | .ok gap =>
                        match get_cellE header cells pointsAliases with
                        | .error e => .error e
                        | .ok points =>
                          .ok (some ⟨pos, number, rider, bike, best_lap, time, gap,
                            points, cells⟩)

/-- The table parser's row loop with throwing operations explicit. -/
def parseRowsE (header : List Text) : List (List Text) → Except PyErr (List TableRow)
  | [] => .ok []
  | tr :: rest =>
    match parseRowE header tr with
    | .error e => .error e
    | .ok r? =>
      match parseRowsE header rest with
      | .error e => .error e
      | .ok rs =>
        match r? with
        | none => .ok rs
        | some r => .ok (r :: rs)

/-- The table loop with throwing operations explicit. -/
def scanTablesE : List HtmlTable → Except PyErr (Option (List TableRow))
  | [] => .ok none
  | t :: rest =>
    let header := tableHeader t
    if header = [] ∨ sPOS ∉ header then scanTablesE rest
    else
      match parseRowsE header (dataRows t) with
      | .error e => .error e
      | .ok results =>
        if results = [] then scanTablesE rest
        else .ok (some results)

/-- The fallback parser's line body with `int(m.group(1))` explicit. -/
def rowOfLineE (ln : Text) : Except PyErr (Option FallbackRow) :=
  match matchRowLine ln with
  | none => .ok none
  | some (d, num, rest) =>
    match pyIntE d with
    | .error e => .error e
    | .ok pos =>
      let tokens := splitWs rest
      let rider := if tokens.length ≥ 2 then some (joinSep ' ' (tokens.take 2)) else none
      .ok (some ⟨pos, num, rider, ln⟩)

/-- The fallback parser's line loop with throwing operations explicit. -/
def fallbackScanE : List Text → Except PyErr (List FallbackRow)
  | [] => .ok []
  | ln :: rest =>
    if isFooterLine ln then .ok []
    else
      match rowOfLineE ln with
      | .error e => .error e
      | .ok r? =>
        match fallbackScanE rest with
        | .error e => .error e
        | .ok rs =>
          match r? with
          | none => .ok rs
          | some r => .ok (r :: rs)

/-- Models `parse_race_results_text_fallback` with throwing operations
explicit. -/
def parse_race_results_text_fallbackE (doc : Document) : Except PyErr (List FallbackRow) :=
  if doc.text = [] then .ok []
  else
    let lines := fallbackLines doc.text
    match findHeaderIdx lines with
    | none => .ok []
    | some header_idx => fallbackScanE (lines.drop (header_idx + 1))

/-- Models `parse_race_results_table_first` with throwing operations
explicit. -/
def parse_race_results_table_firstE (doc : Document) : Except PyErr (List ResultRow) :=
  match scanTablesE doc.tables with
  | .error e => .error e
  | .ok s? =>
    match s? with
    | some rs => .ok (rs.map ResultRow.table)
    | none =>
      match parse_race_results_text_fallbackE doc with
      | .error e => .error e
      | .ok fs => .ok (fs.map ResultRow.fallback)

/-! ### Helper lemmas -/

/-- A table whose derived header lacks `"POS"`. -/
def c3TableNoPos : HtmlTable := ⟨[ .tr [ "NAV".data, "LINKS".data ] ]⟩

/-- A table with a `"POS"` header but no valid data row. -/
def c3TableEmpty : HtmlTable :=
  ⟨[ .tr [ "POS".data, "RIDER".data ], .tr [ "DNF".data, "q".data ] ]⟩

/-- A table with a `"POS"` header and one valid data row. -/
def c3TableGood : HtmlTable :=
  ⟨[ .tr [ "POS".data, "#".data, "RIDER".data, "BIKE".data ],
     .tr [ "1".data, "21".data, "Cooper Webb".data, "Yamaha".data ] ]⟩

/-- A document whose first table is passed over in favour of the second. -/
def c3DocTwoTables : Document := ⟨[c3TableEmpty, c3TableGood], []⟩

/-- A document with no usable table, so the fallback runs. -/
def c3DocFallback : Document :=
  ⟨[c3TableEmpty], "POS # RIDER BIKE\n1 21 Cooper Webb Yamaha".data⟩

/-- The concrete document of the claim's example. -/
def c7ExampleDoc : Document :=
  ⟨[], "POS # RIDER BIKE\n1 21 Cooper Webb Yamaha\nGENERATED BY X".data⟩

/-- A document with no line satisfying the header test. -/
def c7NoHeaderDoc : Document := ⟨[], "hello\nworld races\n1 21 Cooper Webb".data⟩

/-- The two-anchors-same-id scenario of the claim, plus a distinct id. -/
def c5Anchors : List Anchor :=
  [⟨ "?id=7&p=view_event".data, "First Label".data⟩,
   ⟨ "?id=7&p=view_event".data, "Second Label".data⟩,
   ⟨ "?id=8&p=view_event".data, "Other".data⟩]

/-- The first-occurrence event for id 7 in the scenario. -/
def c5FirstEvent : EventRef :=
  ⟨ "7".data, "First Label".data,
    "https://results.supercrosslive.com/events/?id=7&p=view_event".data⟩

/-- An anchor whose discriminator satisfies the case-insensitive test but not
the case-sensitive substring pre-filter. -/
def c4UpperAnchor : Anchor := ⟨ "?id=5&p=VIEW_RACE_RESULT".data, "X".data⟩

/-- The table of the C6 counterexample: the number aliases `NUM` and `NO`
both occur in the header, `NUM` (the earlier alias) at index 2 and `NO` at
index 1, and the data row has only two cells. -/
def c6Table : HtmlTable :=
  ⟨[ .tr [ "POS".data, "NO".data, "NUM".data ], .tr [ "1".data, "5".data ] ]⟩

/-- A document whose only table has POS cell `"0"`. -/
def c2ZeroDoc : Document := ⟨[⟨[ .tr [ "POS".data ], .tr [ "0".data ] ]⟩], []⟩

/-- A document whose fallback line starts with `0`. -/
def c2ZeroFallbackDoc : Document := ⟨[], "POS # RIDER\n0 21 Cooper Webb".data⟩

/-- The projection of a result row's position, on either parser path. -/
def posOfResult : ResultRow → Nat
  | .table r => r.pos
  | .fallback r => r.pos

/-- A one-good-row document for the C2 witness, table path. -/
def c2GoodDoc : Document :=
  ⟨[⟨[ .tr [ "POS".data, "#".data, "RIDER".data ], .tr [ "1".data, "21".data, "Cooper Webb".data ],
       .tr [ "DNF".data, "9".data, "X".data ] ]⟩], []⟩

/-- The row the C2 witness document yields. -/
def c2GoodRow : TableRow :=
  ⟨1, some "21".data, some "Cooper Webb".data, none, none, none, none, none,
    [ "1".data, "21".data, "Cooper Webb".data ]⟩

/-- The values of a key among the pairs `parse_qsl` yields, in order. -/
def valuesOf (k : Text) (pairs : List (Text × Text)) : List Text :=
  pairs.filterMap (fun p => if p.1 = k then some p.2 else none)

/-- An anchor whose stripped href (if non-empty) is a parsable URL: its
netloc does not have mismatched IPv6 brackets.  This is exactly the condition
under which `urlparse`/`urljoin` do not raise on the href. -/
def anchorParses (a : Anchor) : Prop :=
  pyStrip a.href = [] ∨ netlocOk (urlsplitCore (pyStrip a.href)).netloc = true

instance (a : Anchor) : Decidable (anchorParses a) :=
  if h1 : pyStrip a.href = [] then .isTrue (Or.inl h1)
  else if h2 : netlocOk (urlsplitCore (pyStrip a.href)).netloc = true then .isTrue (Or.inr h2)
  else .isFalse (fun h => h.elim h1 h2)

theorem splitFirst_eq_none {c : Char} {l : Text} (h : c ∉ l) : splitFirst c l = none := by
  induction l with
  | nil => rfl
  | cons a t ih =>
    have ha : ¬a = c := fun hac => h (hac ▸ List.mem_cons_self a t)
    rw [splitFirst, if_neg ha, ih (fun hm => h (List.mem_cons_of_mem a hm))]
    rfl

theorem splitScheme_qmark (rest : Text) : splitScheme ('?' :: rest) = none := by
  unfold splitScheme
  have h1 : splitFirst ':' ('?' :: rest) = (splitFirst ':' rest).map (fun p => ('?' :: p.1, p.2)) := by
    simp [splitFirst]
  rw [h1]
  cases splitFirst ':' rest with
  | none => rfl
  | some p => simp [show ('?'.isAlpha) = false from rfl]

/-! ### C1: query-only hrefs resolve against the results listing root -/

theorem urlsplitE_query_only (rest : Text) (h2 : '#' ∉ rest) :
    urlsplitE ('?' :: rest) = .ok ⟨[], [], [], rest, []⟩ := by
  have hcore : urlsplitCore ('?' :: rest) = ⟨[], [], [], rest, []⟩ := by
    unfold urlsplitCore
    rw [splitScheme_qmark]
    have hnet : splitNetloc ('?' :: rest) = ([], '?' :: rest) := by
      unfold splitNetloc
      rw [if_neg]
      intro hc
      cases rest with
      | nil => simp [List.take] at hc
      | cons b bs => simp [List.take] at hc
    simp only [hnet]
    have hfrag : splitFirst '#' ('?' :: rest) = none :=
      splitFirst_eq_none (by simp [h2])
    rw [hfrag]
    have hq : splitFirst '?' ('?' :: rest) = some ([], rest) := by simp [splitFirst]
    rw [hq]
  unfold urlsplitE
  rw [hcore]
  rfl

theorem urlunsplit_split_query (s n pa : Text) (c : Char) (cs : Text) :
    urlunsplit ⟨s, n, pa, c :: cs, []⟩ = urlunsplit ⟨s, n, pa, [], []⟩ ++ '?' :: c :: cs := by
  simp [urlunsplit]

theorem urljoin_RESULTS_ROOT_query (rest : Text) (h1 : rest ≠ []) (h2 : '#' ∉ rest) :
    urljoinE RESULTS_ROOT ('?' :: rest) = .ok (RESULTS_ROOT ++ '?' :: rest) := by
  obtain ⟨r, rs, rfl⟩ : ∃ r rs, rest = r :: rs := by
    cases rest with
    | nil => exact absurd rfl h1
    | cons a l => exact ⟨a, l, rfl⟩
  have hbase : urlsplitE RESULTS_ROOT =
      .ok ⟨ "https".data, "results.supercrosslive.com".data, "/results/".data, [], []⟩ := by
    rfl
  unfold urljoinE
  rw [if_neg (by decide), if_neg (by simp), hbase, urlsplitE_query_only _ h2]
  show Except.ok (urljoinParts ⟨ "https".data, "results.supercrosslive.com".data,
    "/results/".data, [], []⟩ ⟨[], [], [], r :: rs, []⟩ ('?' :: r :: rs)) = _
  congr 1

/-- C1: a query-only href beginning with `?` is resolved against
`RESULTS_ROOT` (the results listing root), not against the current page's
URL, and in particular `"?id=77&p=view_race_result"` resolves to the results
root with exactly that query string. -/
theorem claim_C1 :
    (∀ rest : Text, resolve_session_href ('?' :: rest) = urljoin RESULTS_ROOT ('?' :: rest)) ∧
    (∀ rest : Text, rest ≠ [] → '#' ∉ rest →
      resolve_session_href ('?' :: rest) = RESULTS_ROOT ++ '?' :: rest) ∧
    resolve_session_href "?id=77&p=view_race_result".data =
      "https://results.supercrosslive.com/results/?id=77&p=view_race_result".data ∧
    (urlsplitCore (resolve_session_href "?id=77&p=view_race_result".data)).query =
      "id=77&p=view_race_result".data := by
  refine ⟨?_, ?_, by decide, by decide⟩
  · intro rest
    unfold resolve_session_href
    rw [if_pos (by simp [startsWithT])]
  · intro rest h1 h2
    unfold resolve_session_href
    rw [if_pos (by simp [startsWithT])]
    unfold urljoin
    rw [urljoin_RESULTS_ROOT_query rest h1 h2]

/-- Witness for C1 at the concrete href of the claim. -/
theorem claim_C1_witness :
    resolve_session_href ('?' :: "id=77&p=view_race_result".data) =
      RESULTS_ROOT ++ '?' :: "id=77&p=view_race_result".data :=
  claim_C1.2.1 "id=77&p=view_race_result".data (by decide) (by decide)

/-! ### C3: first-match-wins table scanning -/

/-- C3: the table scan considers tables in document order, skips a table
whose header lacks `"POS"`, passes over a `"POS"`-headed table with zero
surviving rows, returns the rows of the first table yielding at least one
row and stops there, and delegates to the text fallback on the same document
when no table yields rows. -/
theorem claim_C3 :
    (∀ (t : HtmlTable) (rest : List HtmlTable), sPOS ∉ tableHeader t →
      scanTables (t :: rest) = scanTables rest) ∧
    (∀ (t : HtmlTable) (rest : List HtmlTable), sPOS ∈ tableHeader t → parseTable t = [] →
      scanTables (t :: rest) = scanTables rest) ∧
    (∀ (t : HtmlTable) (rest : List HtmlTable), sPOS ∈ tableHeader t → parseTable t ≠ [] →
      scanTables (t :: rest) = some (parseTable t)) ∧
    (∀ (doc : Document) (rs : List TableRow), scanTables doc.tables = some rs →
      parse_race_results_table_first doc = rs.map ResultRow.table) ∧
    (∀ doc : Document, scanTables doc.tables = none →
      parse_race_results_table_first doc =
        (parse_race_results_text_fallback doc).map ResultRow.fallback) := by
  refine ⟨?_, ?_, ?_, ?_, ?_⟩
  · intro t rest h
    simp only [scanTables]
    rw [if_pos (Or.inr h)]
  · intro t rest h h0
    simp only [scanTables]
    rw [if_neg (fun hc => hc.elim (fun he => by rw [he] at h; exact List.not_mem_nil _ h)
      (fun hn => hn h)), if_pos h0]
  · intro t rest h h0
    simp only [scanTables]
    rw [if_neg (fun hc => hc.elim (fun he => by rw [he] at h; exact List.not_mem_nil _ h)
      (fun hn => hn h)), if_neg h0]
  · intro doc rs h
    unfold parse_race_results_table_first
    rw [h]
  · intro doc h
    unfold parse_race_results_table_first
    rw [h]

/-- Witness for C3 at concrete tables covering every hypothesis. -/
theorem claim_C3_witness :
    scanTables [c3TableNoPos, c3TableGood] = scanTables [c3TableGood] ∧
    scanTables [c3TableEmpty, c3TableGood] = scanTables [c3TableGood] ∧
    scanTables [c3TableGood] = some (parseTable c3TableGood) ∧
    parse_race_results_table_first c3DocTwoTables = (parseTable c3TableGood).map ResultRow.table ∧
    parse_race_results_table_first c3DocFallback =
      (parse_race_results_text_fallback c3DocFallback).map ResultRow.fallback :=
  ⟨claim_C3.1 _ _ (by decide), claim_C3.2.1 _ _ (by decide) (by decide),
    claim_C3.2.2.1 _ _ (by decide) (by decide),
    claim_C3.2.2.2.1 c3DocTwoTables _ (by decide),
    claim_C3.2.2.2.2 c3DocFallback (by decide)⟩

/-! ### C7: the text fallback parser -/

theorem findHeaderIdx_eq_none {lines : List Text}
    (h : ∀ ln ∈ lines, isHeaderLine ln = false) : findHeaderIdx lines = none := by
  induction lines with
  | nil => rfl
  | cons ln rest ih =>
    rw [findHeaderIdx, if_neg (by rw [h ln (List.mem_cons_self ln rest)]; exact Bool.false_ne_true),
      ih (fun x hx => h x (List.mem_cons_of_mem ln hx))]
    rfl

theorem findHeaderIdx_spec {lines : List Text} {i : Nat} (h : findHeaderIdx lines = some i) :
    ∃ ln, lines[i]? = some ln ∧ isHeaderLine ln = true ∧
      ∀ j, j < i → ∀ ln2, lines[j]? = some ln2 → isHeaderLine ln2 = false := by
  induction lines generalizing i with
  | nil => exact absurd h (by rw [findHeaderIdx]; exact Option.noConfusion)
  | cons ln rest ih =>
    rw [findHeaderIdx] at h
    by_cases hh : isHeaderLine ln
    · rw [if_pos hh] at h
      obtain rfl : i = 0 := (Option.some_inj.mp h).symm
      exact ⟨ln, by simp, hh, fun j hj => absurd hj (Nat.not_lt_zero j)⟩
    · rw [if_neg hh] at h
      obtain ⟨i', hi', rfl⟩ : ∃ i', findHeaderIdx rest = some i' ∧ i = i' + 1 := by
        cases hr : findHeaderIdx rest with
        | none => rw [hr] at h; exact Option.noConfusion h
        | some k => rw [hr] at h; exact ⟨k, rfl, (Option.some_inj.mp h).symm⟩
      obtain ⟨ln', hget, hhead, hbefore⟩ := ih hi'
      refine ⟨ln', by simpa using hget, hhead, fun j hj ln2 hget2 => ?_⟩
      cases j with
      | zero =>
        simp only [List.getElem?_cons_zero, Option.some_inj] at hget2
        rw [← hget2]
        exact Bool.eq_false_iff.mpr hh
      | succ j' =>
        simp only [List.getElem?_cons_succ] at hget2
        exact hbefore j' (Nat.lt_of_succ_lt_succ hj) ln2 hget2

theorem parse_fallback_eq (doc : Document) (ht : doc.text ≠ []) :
    parse_race_results_text_fallback doc =
      match findHeaderIdx (fallbackLines doc.text) with
      | none => []
      | some i => fallbackScan ((fallbackLines doc.text).drop (i + 1)) := by
  unfold parse_race_results_text_fallback
  rw [if_neg ht]

/-- C7: the fallback parser anchors on the first line passing the header
test and returns empty when none exists; after the anchor it stops at the
first footer line, emits one row per line matching the data pattern and
skips other lines; on the claim's example it returns exactly one row. -/
theorem claim_C7 :
    (∀ doc : Document, (∀ ln ∈ fallbackLines doc.text, isHeaderLine ln = false) →
      parse_race_results_text_fallback doc = []) ∧
    (∀ (doc : Document) (i : Nat), findHeaderIdx (fallbackLines doc.text) = some i →
      parse_race_results_text_fallback doc =
        fallbackScan ((fallbackLines doc.text).drop (i + 1)) ∧
      ∃ ln, (fallbackLines doc.text)[i]? = some ln ∧ isHeaderLine ln = true ∧
        ∀ j, j < i → ∀ ln2, (fallbackLines doc.text)[j]? = some ln2 →
          isHeaderLine ln2 = false) ∧
    (∀ (ln : Text) (rest : List Text), isFooterLine ln = true →
      fallbackScan (ln :: rest) = []) ∧
    (∀ (ln : Text) (rest : List Text) (r : FallbackRow), isFooterLine ln = false →
      rowOfLine ln = some r → fallbackScan (ln :: rest) = r :: fallbackScan rest) ∧
    (∀ (ln : Text) (rest : List Text), isFooterLine ln = false → rowOfLine ln = none →
      fallbackScan (ln :: rest) = fallbackScan rest) ∧
    parse_race_results_text_fallback c7ExampleDoc =
      [⟨1, "21".data, some "Cooper Webb".data, "1 21 Cooper Webb Yamaha".data⟩] := by
  refine ⟨?_, ?_, ?_, ?_, ?_, by decide⟩
  · intro doc h
    by_cases ht : doc.text = []
    · unfold parse_race_results_text_fallback
      rw [if_pos ht]
    · rw [parse_fallback_eq doc ht, findHeaderIdx_eq_none h]
  · intro doc i h
    constructor
    · have ht : doc.text ≠ [] := by
        intro ht
        rw [show fallbackLines doc.text = [] from by rw [ht]; rfl] at h
        exact Option.noConfusion (h ▸ rfl : (none : Option Nat) = some i)
      rw [parse_fallback_eq doc ht, h]
    · exact findHeaderIdx_spec h
  · intro ln rest h
    rw [fallbackScan, if_pos h]
  · intro ln rest r h hr
    rw [fallbackScan, if_neg (by rw [h]; exact Bool.false_ne_true), hr]
  · intro ln rest h hr
    rw [fallbackScan, if_neg (by rw [h]; exact Bool.false_ne_true), hr]

/-! ### C5: de-duplication keeps first occurrences in order -/

theorem dedupeByAux_sublist {α : Type} (key : α → Text) (seen : List Text) (l : List α) :
    (dedupeByAux key seen l).Sublist l := by
  induction l generalizing seen with
  | nil => exact List.Sublist.refl []
  | cons a rest ih =>
    rw [dedupeByAux]
    by_cases h : key a ∈ seen
    · rw [if_pos h]
      exact List.Sublist.cons a (ih seen)
    · rw [if_neg h]
      exact List.Sublist.cons₂ a (ih (key a :: seen))

theorem dedupeByAux_key_not_seen {α : Type} (key : α → Text) (seen : List Text) (l : List α) :
    ∀ x ∈ dedupeByAux key seen l, key x ∉ seen := by
  induction l generalizing seen with
  | nil => intro x hx; exact absurd hx (List.not_mem_nil x)
  | cons a rest ih =>
    intro x hx
    rw [dedupeByAux] at hx
    by_cases h : key a ∈ seen
    · rw [if_pos h] at hx
      exact ih seen x hx
    · rw [if_neg h] at hx
      rcases List.mem_cons.mp hx with rfl | hx'
      · exact h
      · intro hs
        exact ih (key a :: seen) x hx' (List.mem_cons_of_mem _ hs)

theorem dedupeByAux_nodup_keys {α : Type} (key : α → Text) (seen : List Text) (l : List α) :
    ((dedupeByAux key seen l).map key).Nodup := by
  induction l generalizing seen with
  | nil => exact List.nodup_nil
  | cons a rest ih =>
    rw [dedupeByAux]
    by_cases h : key a ∈ seen
    · rw [if_pos h]
      exact ih seen
    · rw [if_neg h, List.map_cons]
      refine List.nodup_cons.mpr ⟨?_, ih (key a :: seen)⟩
      intro hmem
      obtain ⟨y, hy, hky⟩ := List.mem_map.mp hmem
      exact dedupeByAux_key_not_seen key (key a :: seen) rest y hy
        (by rw [hky]; exact List.mem_cons_self _ _)

theorem dedupeByAux_complete {α : Type} (key : α → Text) (seen : List Text) (l : List α) :
    ∀ x ∈ l, key x ∉ seen → ∃ y ∈ dedupeByAux key seen l, key y = key x := by
  induction l generalizing seen with
  | nil => intro x hx; exact absurd hx (List.not_mem_nil x)
  | cons a rest ih =>
    intro x hx hxs
    rw [dedupeByAux]
    by_cases h : key a ∈ seen
    · rw [if_pos h]
      rcases List.mem_cons.mp hx with rfl | hx'
      · exact absurd h hxs
      · exact ih seen x hx' hxs
    · rw [if_neg h]
      rcases List.mem_cons.mp hx with rfl | hx'
      · exact ⟨x, List.mem_cons_self _ _, rfl⟩
      · by_cases hk : key x = key a
        · exact ⟨a, List.mem_cons_self _ _, hk.symm⟩
        · obtain ⟨y, hy, hky⟩ := ih (key a :: seen) x hx' (by
            intro hmem
            rcases List.mem_cons.mp hmem with h1 | h2
            · exact hk h1
            · exact hxs h2)
          exact ⟨y, List.mem_cons_of_mem _ hy, hky⟩

theorem dedupeByAux_first_occ {α : Type} (key : α → Text) (seen : List Text) (l : List α) :
    ∀ y ∈ dedupeByAux key seen l, l.find? (fun z => decide (key z = key y)) = some y := by
  induction l generalizing seen with
  | nil => intro y hy; exact absurd hy (List.not_mem_nil y)
  | cons a rest ih =>
    intro y hy
    rw [dedupeByAux] at hy
    by_cases h : key a ∈ seen
    · rw [if_pos h] at hy
      have hne : ¬key a = key y := fun he =>
        dedupeByAux_key_not_seen key seen rest y hy (he ▸ h)
      rw [List.find?_cons_of_neg _ (by simpa using hne)]
      exact ih seen y hy
    · rw [if_neg h] at hy
      rcases List.mem_cons.mp hy with rfl | hy'
      · rw [List.find?_cons_of_pos _ (by simp)]
      · have hne : ¬key a = key y := fun he =>
          dedupeByAux_key_not_seen key (key a :: seen) rest y hy'
            (he ▸ List.mem_cons_self _ _)
        rw [List.find?_cons_of_neg _ (by simpa using hne)]
        exact ih (key a :: seen) y hy'

/-- C5: discovery returns one entity per distinct id, each equal to the first
matching entry in document order (so its label and URL are the first
occurrence's), with no duplicate ids, as a subsequence of the pre-dedup list
(so the output is ordered by each id's first occurrence). -/
theorem claim_C5 :
    (∀ anchors : List Anchor,
      (discover_events anchors).Sublist (anchors.filterMap eventOfAnchor) ∧
      ((discover_events anchors).map (fun e => e.event_id)).Nodup ∧
      (∀ e ∈ discover_events anchors,
        (anchors.filterMap eventOfAnchor).find?
          (fun z => decide (z.event_id = e.event_id)) = some e) ∧
      (∀ f ∈ anchors.filterMap eventOfAnchor,
        ∃ e ∈ discover_events anchors, e.event_id = f.event_id)) ∧
    (∀ anchors : List Anchor,
      (discover_sessions anchors).Sublist (anchors.filterMap sessionOfAnchor) ∧
      ((discover_sessions anchors).map (fun s => s.race_result_id)).Nodup ∧
      (∀ s ∈ discover_sessions anchors,
        (anchors.filterMap sessionOfAnchor).find?
          (fun z => decide (z.race_result_id = s.race_result_id)) = some s) ∧
      (∀ f ∈ anchors.filterMap sessionOfAnchor,
        ∃ s ∈ discover_sessions anchors, s.race_result_id = f.race_result_id)) := by
  constructor
  · intro anchors
    exact ⟨dedupeByAux_sublist _ [] _, dedupeByAux_nodup_keys _ [] _,
      dedupeByAux_first_occ _ [] _,
      fun f hf => dedupeByAux_complete _ [] _ f hf (List.not_mem_nil _)⟩
  · intro anchors
    exact ⟨dedupeByAux_sublist _ [] _, dedupeByAux_nodup_keys _ [] _,
      dedupeByAux_first_occ _ [] _,
      fun f hf => dedupeByAux_complete _ [] _ f hf (List.not_mem_nil _)⟩

/-- Witness for C5: on the concrete scenario, the discovered entity for id 7
is the first occurrence (label `"First Label"`), and every pre-dedup entry's
id is represented. -/
theorem claim_C5_witness :
    (c5Anchors.filterMap eventOfAnchor).find?
      (fun z => decide (z.event_id = c5FirstEvent.event_id)) = some c5FirstEvent ∧
    (∃ e ∈ discover_events c5Anchors, e.event_id = "7".data) ∧
    ((discover_events c5Anchors).map (fun e => e.event_id)).Nodup :=
  ⟨(claim_C5.1 c5Anchors).2.2.1 c5FirstEvent (by decide),
    by
      have h := (claim_C5.1 c5Anchors).2.2.2
        ⟨ "7".data, "Second Label".data,
          "https://results.supercrosslive.com/events/?id=7&p=view_event".data⟩ (by decide)
      simpa using h,
    (claim_C5.1 c5Anchors).2.1⟩

/-! ### C4: discriminator matching and the session pre-filter -/

/-- Counterexample to C4 as stated: this anchor's resolved URL carries a `p`
parameter equal to `"view_race_result"` after trimming and lower-casing,
together with the non-empty id `"5"`, yet `discover_sessions` discovers
nothing, because the pre-filter tests the literal lowercase substring against
the resolved URL before the case-insensitive comparison runs. -/
theorem claim_C4_counterexample :
    discover_sessions [c4UpperAnchor] = [] ∧
    toLowerT (pyStrip (qFirstD
      (parse_qs (urlsplitCore (resolve_session_href (pyStrip c4UpperAnchor.href))).query) sP)) =
      sViewRaceResult ∧
    qFirstOpt
      (parse_qs (urlsplitCore (resolve_session_href (pyStrip c4UpperAnchor.href))).query) sId =
      some "5".data ∧
    "5".data ≠ ([] : Text) := by
  refine ⟨by decide, by decide, by decide, by decide⟩

/-- C4 (amended): events discovery is fully case-insensitive — an anchor
whose resolved URL carries `p` equal to `"view_event"` after trimming and
lower-casing and a non-empty id is always discovered.  Sessions discovery is
case-insensitive only among hrefs whose resolved URL passes the
case-sensitive substring pre-filter for `"view_race_result"`; an anchor whose
resolved URL lacks that literal substring is rejected outright. -/
theorem claim_C4 :
    (∀ (anchors : List Anchor) (a : Anchor) (eid : Text), a ∈ anchors →
      pyStrip a.href ≠ [] →
      toLowerT (pyStrip (qFirstD
        (parse_qs (urlsplitCore (urljoin EVENTS_URL (pyStrip a.href))).query) sP)) = sViewEvent →
      qFirstOpt (parse_qs (urlsplitCore (urljoin EVENTS_URL (pyStrip a.href))).query) sId =
        some eid →
      eid ≠ [] →
      ∃ e ∈ discover_events anchors, e.event_id = eid) ∧
    (∀ (anchors : List Anchor) (a : Anchor) (rrid : Text), a ∈ anchors →
      pyStrip a.href ≠ [] →
      hasSub (resolve_session_href (pyStrip a.href)) sViewRaceResult = true →
      toLowerT (pyStrip (qFirstD
        (parse_qs (urlsplitCore (resolve_session_href (pyStrip a.href))).query) sP)) =
        sViewRaceResult →
      qFirstOpt (parse_qs (urlsplitCore (resolve_session_href (pyStrip a.href))).query) sId =
        some rrid →
      rrid ≠ [] →
      ∃ s ∈ discover_sessions anchors, s.race_result_id = rrid) ∧
    (∀ a : Anchor, pyStrip a.href ≠ [] →
      hasSub (resolve_session_href (pyStrip a.href)) sViewRaceResult = false →
      sessionOfAnchor a = none) := by
  refine ⟨?_, ?_, ?_⟩
  · intro anchors a eid ha hhr hpval hid heid
    have h1 : eventOfAnchor a = some ⟨eid,
        (if normalize_ws a.text = [] then sEventPre ++ eid else normalize_ws a.text),
        urljoin EVENTS_URL (pyStrip a.href)⟩ := by
      unfold eventOfAnchor
      rw [if_neg hhr]
      unfold eventOfHref
      rw [if_neg (by rw [hpval]; exact fun hc => hc rfl), hid]
      simp [heid]
    have hmem : (⟨eid,
        (if normalize_ws a.text = [] then sEventPre ++ eid else normalize_ws a.text),
        urljoin EVENTS_URL (pyStrip a.href)⟩ : EventRef) ∈ anchors.filterMap eventOfAnchor :=
      List.mem_filterMap.mpr ⟨a, ha, h1⟩
    obtain ⟨e, he, hkey⟩ := dedupeByAux_complete (fun e => e.event_id) [] _ _ hmem
      (List.not_mem_nil _)
    exact ⟨e, he, hkey⟩
  · intro anchors a rrid ha hhr hsub hpval hid hrrid
    have h1 : sessionOfAnchor a = some ⟨rrid,
        (if normalize_ws a.text = [] then sRacePre ++ rrid else normalize_ws a.text),
        resolve_session_href (pyStrip a.href)⟩ := by
      unfold sessionOfAnchor
      rw [if_neg hhr]
      unfold sessionOfHref
      rw [if_neg (by rw [hsub]; exact Bool.false_ne_true),
        if_neg (by rw [hpval]; exact fun hc => hc rfl), hid]
      simp [hrrid]
    have hmem : (⟨rrid,
        (if normalize_ws a.text = [] then sRacePre ++ rrid else normalize_ws a.text),
        resolve_session_href (pyStrip a.href)⟩ : SessionRef) ∈
        anchors.filterMap sessionOfAnchor :=
      List.mem_filterMap.mpr ⟨a, ha, h1⟩
    obtain ⟨s, hs, hkey⟩ := dedupeByAux_complete (fun s => s.race_result_id) [] _ _ hmem
      (List.not_mem_nil _)
    exact ⟨s, hs, hkey⟩
  · intro a hhr hsub
    unfold sessionOfAnchor
    rw [if_neg hhr]
    unfold sessionOfHref
    rw [if_pos (by rw [hsub]; rfl)]

/-- Witness for C4 (amended) at concrete anchors covering both discovery
directions and the pre-filter rejection. -/
theorem claim_C4_witness :
    (∃ e ∈ discover_events [⟨ "?id=5&p=View_Event".data, "A1".data⟩], e.event_id = "5".data) ∧
    (∃ s ∈ discover_sessions [⟨ "?id=9&p=view_race_result".data, "Main".data⟩],
      s.race_result_id = "9".data) ∧
    sessionOfAnchor c4UpperAnchor = none :=
  ⟨claim_C4.1 _ _ _ (List.mem_cons_self _ _) (by decide) (by decide) (by decide) (by decide),
    claim_C4.2.1 _ _ _ (List.mem_cons_self _ _) (by decide) (by decide) (by decide) (by decide)
      (by decide),
    claim_C4.2.2 c4UpperAnchor (by decide) (by decide)⟩

/-! ### C6: alias resolution in `get_cell` -/

theorem get_cell_cons_hit (header cells : List Text) (n : Text) (rest : List Text) (i : Nat)
    (h1 : colMap header (toUpperT n) = some i) (h2 : i < cells.length) :
    get_cell header cells (n :: rest) =
      (if cells.getD i [] = [] then none else some (cells.getD i [])) := by
  have hg : cells.getD i [] = cells.get ⟨i, h2⟩ := by
    rw [List.getD_eq_getElem _ _ h2]
    rfl
  rw [get_cell, h1]
  show (if h : i < cells.length then
      (if cells.get ⟨i, h⟩ = [] then none else some (cells.get ⟨i, h⟩))
    else get_cell header cells rest) = _
  rw [dif_pos h2, hg]

theorem get_cell_cons_outOfRange (header cells : List Text) (n : Text) (rest : List Text)
    (i : Nat) (h1 : colMap header (toUpperT n) = some i) (h2 : ¬i < cells.length) :
    get_cell header cells (n :: rest) = get_cell header cells rest := by
  rw [get_cell, h1]
  show (if h : i < cells.length then
      (if cells.get ⟨i, h⟩ = [] then none else some (cells.get ⟨i, h⟩))
    else get_cell header cells rest) = _
  rw [dif_neg h2]

theorem get_cell_cons_absent (header cells : List Text) (n : Text) (rest : List Text)
    (h1 : colMap header (toUpperT n) = none) :
    get_cell header cells (n :: rest) = get_cell header cells rest := by
  rw [get_cell, h1]

theorem get_cell_some {header cells : List Text} {names : List Text} {v : Text}
    (h : get_cell header cells names = some v) :
    v ≠ [] ∧ ∃ n ∈ names, ∃ i, colMap header (toUpperT n) = some i ∧
      ∃ hlt : i < cells.length, v = cells.get ⟨i, hlt⟩ := by
  induction names with
  | nil => exact absurd h (by rw [get_cell]; exact Option.noConfusion)
  | cons n rest ih =>
    cases hc : colMap header (toUpperT n) with
    | none =>
      rw [get_cell_cons_absent _ _ _ _ hc] at h
      obtain ⟨hv, n', hn', i, hi, hlt, hval⟩ := ih h
      exact ⟨hv, n', List.mem_cons_of_mem _ hn', i, hi, hlt, hval⟩
    | some i =>
      by_cases hlt : i < cells.length
      · rw [get_cell_cons_hit _ _ _ _ _ hc hlt] at h
        by_cases hv : cells.getD i [] = []
        · rw [if_pos hv] at h
          exact absurd h (by exact Option.noConfusion)
        · rw [if_neg hv] at h
          have hg : cells.getD i [] = cells.get ⟨i, hlt⟩ := by
            rw [List.getD_eq_getElem _ _ hlt]
            rfl
          have hval : v = cells.get ⟨i, hlt⟩ := by
            rw [← Option.some_inj.mp h, hg]
          refine ⟨?_, n, List.mem_cons_self _ _, i, hc, hlt, hval⟩
          rw [hval, ← hg]
          exact hv
      · rw [get_cell_cons_outOfRange _ _ _ _ _ hc hlt] at h
        obtain ⟨hv, n', hn', i', hi', hlt', hval⟩ := ih h
        exact ⟨hv, n', List.mem_cons_of_mem _ hn', i', hi', hlt', hval⟩

theorem get_cell_mem {header cells : List Text} {names : List Text} {v : Text}
    (h : get_cell header cells names = some v) : v ≠ [] ∧ v ∈ cells := by
  obtain ⟨hv, _, _, i, _, hlt, hval⟩ := get_cell_some h
  exact ⟨hv, hval ▸ List.get_mem cells i hlt⟩

/-- Counterexample to C6 as stated: the first alias of `number` present in
the header is `"NUM"` (the alias `"#"` is absent), mapped to column 2, which
does not exist in the two-cell row — yet the parsed row's `number` is
`some "5"`, taken from the later alias `"NO"`'s column 1.  The column used is
therefore not the one mapped from the first alias present in the header. -/
theorem claim_C6_counterexample :
    parseTable c6Table =
      [⟨1, some "5".data, none, none, none, none, none, none, [ "1".data, "5".data ]⟩] ∧
    colMap (tableHeader c6Table) "#".data = none ∧
    colMap (tableHeader c6Table) "NUM".data = some 2 ∧
    colMap (tableHeader c6Table) "NO".data = some 1 ∧
    ([ "1".data, "5".data ] : List Text).length = 2 := by
  refine ⟨by decide, by decide, by decide, by decide, by decide⟩

/-- C6 (amended): for each named field, the column used is the one mapped
from the first alias of the field that is present in the header *and* whose
mapped index lies inside the row's cell list (an alias mapped out of range
falls through to the next alias); a cell whose normalized text is empty is
reported as absent, and `get_cell` never returns the empty string. -/
theorem claim_C6 :
    (∀ (header cells : List Text) (n : Text) (rest : List Text) (i : Nat),
      colMap header (toUpperT n) = some i → i < cells.length →
      get_cell header cells (n :: rest) =
        (if cells.getD i [] = [] then none else some (cells.getD i []))) ∧
    (∀ (header cells : List Text) (n : Text) (rest : List Text) (i : Nat),
      colMap header (toUpperT n) = some i → ¬i < cells.length →
      get_cell header cells (n :: rest) = get_cell header cells rest) ∧
    (∀ (header cells : List Text) (n : Text) (rest : List Text),
      colMap header (toUpperT n) = none →
      get_cell header cells (n :: rest) = get_cell header cells rest) ∧
    (∀ (header cells names : List Text), get_cell header cells names ≠ some []) :=
  ⟨get_cell_cons_hit, get_cell_cons_outOfRange, get_cell_cons_absent,
    fun _ _ _ h => (get_cell_some h).1 rfl⟩

/-- Witness for C6 (amended) on the counterexample table's header: `NO` is
used for the row (in range), `NUM` falls through (out of range), `#` falls
through (absent), and an empty cell is reported absent. -/
theorem claim_C6_witness :
    get_cell (tableHeader c6Table) [ "1".data, "5".data ] ( "NO".data :: []) = some "5".data ∧
    get_cell (tableHeader c6Table) [ "1".data, "5".data ] ( "NUM".data :: [ "NO".data ]) =
      get_cell (tableHeader c6Table) [ "1".data, "5".data ] [ "NO".data ] ∧
    get_cell (tableHeader c6Table) [ "1".data, "5".data ] ( "#".data :: [ "NO".data ]) =
      get_cell (tableHeader c6Table) [ "1".data, "5".data ] [ "NO".data ] ∧
    get_cell (tableHeader c6Table) [ "1".data, [] ] ( "NO".data :: []) = none := by
  refine ⟨?_, claim_C6.2.1 _ _ _ _ 2 (by decide) (by decide),
    claim_C6.2.2.1 _ _ _ _ (by decide), ?_⟩
  · rw [claim_C6.1 _ _ _ _ 1 (by decide) (by decide)]
    decide
  · rw [claim_C6.1 _ _ _ _ 1 (by decide) (by decide)]
    decide

/-! ### Row-level characterizations for C2 and C10 -/

theorem parseRow_some {header tr : List Text} {r : TableRow}
    (h : parseRow header tr = some r) :
    r.raw = tr.map normalize_ws ∧ r.raw ≠ [] ∧
    (∃ pos_raw, get_cell header r.raw [sPOS] = some pos_raw ∧ isDigits pos_raw = true ∧
      r.pos = natOfDigits pos_raw) ∧
    r.number = get_cell header r.raw numberAliases ∧
    r.rider = get_cell header r.raw riderAliases ∧
    r.bike = get_cell header r.raw bikeAliases ∧
    r.best_lap = get_cell header r.raw bestLapAliases ∧
    r.time = get_cell header r.raw timeAliases ∧
    r.gap = get_cell header r.raw gapAliases ∧
    r.points = get_cell header r.raw pointsAliases := by
  simp only [parseRow] at h
  split at h
  next hc => exact Option.noConfusion h
  next hc =>
    split at h
    next hg => exact Option.noConfusion h
    next pos_raw hg =>
      split at h
      next hd => exact Option.noConfusion h
      next hd =>
        obtain rfl := (Option.some_inj.mp h).symm
        have hdig : isDigits pos_raw = true := by
          cases hb : isDigits pos_raw with
          | false => exact absurd (by rw [hb]; rfl) hd
          | true => rfl
        exact ⟨rfl, hc, ⟨pos_raw, hg, hdig, rfl⟩, rfl, rfl, rfl, rfl, rfl, rfl, rfl⟩

theorem parseRow_none_of_pos_bad {header tr : List Text}
    (h : ∀ v, get_cell header (tr.map normalize_ws) [sPOS] = some v → isDigits v = false) :
    parseRow header tr = none := by
  simp only [parseRow]
  split
  next => rfl
  next hc =>
    split
    next => rfl
    next pos_raw hg =>
      rw [if_pos (by rw [h pos_raw hg]; rfl)]

theorem scanTables_some {tables : List HtmlTable} {rows : List TableRow}
    (h : scanTables tables = some rows) :
    ∃ t ∈ tables, sPOS ∈ tableHeader t ∧ rows = parseTable t ∧ rows ≠ [] := by
  induction tables with
  | nil => exact absurd h (by rw [scanTables]; exact Option.noConfusion)
  | cons t rest ih =>
    simp only [scanTables] at h
    split at h
    next =>
      obtain ⟨t', ht', hmem, hrows, hne⟩ := ih h
      exact ⟨t', List.mem_cons_of_mem _ ht', hmem, hrows, hne⟩
    next hcond =>
      have hmem : sPOS ∈ tableHeader t := by
        rcases not_or.mp hcond with ⟨_, h2⟩
        exact not_not.mp h2
      split at h
      next =>
        obtain ⟨t', ht', hm, hrows, hne⟩ := ih h
        exact ⟨t', List.mem_cons_of_mem _ ht', hm, hrows, hne⟩
      next hne =>
        exact ⟨t, List.mem_cons_self _ _, hmem, (Option.some_inj.mp h).symm,
          (Option.some_inj.mp h).symm ▸ hne⟩

theorem fallbackScan_mem {lines : List Text} {r : FallbackRow} (h : r ∈ fallbackScan lines) :
    ∃ ln ∈ lines, rowOfLine ln = some r := by
  induction lines with
  | nil => exact absurd h (List.not_mem_nil r)
  | cons ln rest ih =>
    rw [fallbackScan] at h
    split at h
    next => exact absurd h (List.not_mem_nil r)
    next =>
      split at h
      next =>
        obtain ⟨ln', hln', hr⟩ := ih h
        exact ⟨ln', List.mem_cons_of_mem _ hln', hr⟩
      next r' hr' =>
        rcases List.mem_cons.mp h with rfl | h'
        · exact ⟨ln, List.mem_cons_self _ _, hr'⟩
        · obtain ⟨ln', hln', hr⟩ := ih h'
          exact ⟨ln', List.mem_cons_of_mem _ hln', hr⟩

theorem matchRowLine_some {ln d tok rest : Text}
    (h : matchRowLine ln = some (d, tok, rest)) :
    d = ln.takeWhile Char.isDigit ∧ isDigits d = true := by
  simp only [matchRowLine] at h
  split at h
  next => exact Option.noConfusion h
  next h1 =>
    split at h
    next => exact Option.noConfusion h
    next h2 =>
      split at h
      next => exact Option.noConfusion h
      next h3 =>
        split at h
        next => exact Option.noConfusion h
        next h4 =>
          obtain ⟨rfl, _, _⟩ := Prod.mk.injEq .. ▸ (Option.some_inj.mp h).symm
          refine ⟨rfl, ?_⟩
          unfold isDigits
          rw [Bool.and_eq_true, List.all_eq_true]
          constructor
          · rw [Bool.not_eq_true']
            exact (Bool.not_eq_true _) ▸ fun he => h1 (List.isEmpty_iff.mp he)
          · intro c hc
            exact List.mem_takeWhile_imp hc

theorem rowOfLine_pos {ln : Text} {r : FallbackRow} (h : rowOfLine ln = some r) :
    isDigits (ln.takeWhile Char.isDigit) = true ∧
      r.pos = natOfDigits (ln.takeWhile Char.isDigit) := by
  unfold rowOfLine at h
  cases hm : matchRowLine ln with
  | none => rw [hm] at h; exact Option.noConfusion h
  | some p =>
    obtain ⟨d, tok, rest⟩ := p
    rw [hm] at h
    obtain ⟨rfl, hdig⟩ := matchRowLine_some hm
    obtain rfl := (Option.some_inj.mp h).symm
    exact ⟨hdig, rfl⟩

/-! ### C2: produced positions are parsed digit strings -/

/-- Counterexample to C2 as stated: both parser paths accept a position cell
of `"0"` (`re.fullmatch(r"\d+", "0")` and `re.match(r"^(\d+)...", "0 ...")`
both succeed), producing rows whose position is `0`, not `≥ 1`. -/
theorem claim_C2_counterexample :
    (∃ r ∈ parse_race_results_table_first c2ZeroDoc, posOfResult r = 0) ∧
    (∃ r ∈ parse_race_results_table_first c2ZeroFallbackDoc, posOfResult r = 0) := by
  refine ⟨by decide, by decide⟩

/-- C2 (amended): every row produced by either parser carries as its
position the integer value of a digit-only string — the `POS` cell on the
table path (which must fully match `\d+`, rows with a missing or non-digit
`POS` cell being dropped), and the leading digit run on the fallback path.
`"0"` is accepted by both patterns, so the position is a natural number but
not necessarily `≥ 1`. -/
theorem claim_C2 :
    (∀ (doc : Document) (r : TableRow), ResultRow.table r ∈ parse_race_results_table_first doc →
      ∃ t ∈ doc.tables, ∃ pos_raw, get_cell (tableHeader t) r.raw [sPOS] = some pos_raw ∧
        isDigits pos_raw = true ∧ r.pos = natOfDigits pos_raw) ∧
    (∀ (doc : Document) (r : FallbackRow),
      ResultRow.fallback r ∈ parse_race_results_table_first doc →
      ∃ ln, rowOfLine ln = some r ∧ isDigits (ln.takeWhile Char.isDigit) = true ∧
        r.pos = natOfDigits (ln.takeWhile Char.isDigit)) ∧
    (∀ header tr : List Text,
      (∀ v, get_cell header (tr.map normalize_ws) [sPOS] = some v → isDigits v = false) →
      parseRow header tr = none) := by
  refine ⟨?_, ?_, fun header tr h => parseRow_none_of_pos_bad h⟩
  · intro doc r hmem
    unfold parse_race_results_table_first at hmem
    split at hmem
    next rows hscan =>
      obtain ⟨x, hxmem, hx⟩ := List.mem_map.mp hmem
      obtain rfl : x = r := by injection hx
      obtain ⟨t, ht, _, hrows, _⟩ := scanTables_some hscan
      rw [hrows] at hxmem
      obtain ⟨tr, _, hrow⟩ := List.mem_filterMap.mp hxmem
      obtain ⟨_, _, ⟨pos_raw, hget, hdig, hpos⟩, _⟩ := parseRow_some hrow
      exact ⟨t, ht, pos_raw, hget, hdig, hpos⟩
    next hscan =>
      obtain ⟨x, _, hx⟩ := List.mem_map.mp hmem
      exact ResultRow.noConfusion hx
  · intro doc r hmem
    unfold parse_race_results_table_first at hmem
    split at hmem
    next rows hscan =>
      obtain ⟨x, _, hx⟩ := List.mem_map.mp hmem
      exact ResultRow.noConfusion hx
    next hscan =>
      obtain ⟨x, hxmem, hx⟩ := List.mem_map.mp hmem
      obtain rfl : x = r := by injection hx
      by_cases ht : doc.text = []
      · rw [show parse_race_results_text_fallback doc = [] from by
          unfold parse_race_results_text_fallback; rw [if_pos ht]] at hxmem
        exact absurd hxmem (List.not_mem_nil _)
      · rw [parse_fallback_eq doc ht] at hxmem
        split at hxmem
        next => exact absurd hxmem (List.not_mem_nil _)
        next i hidx =>
          obtain ⟨ln, _, hr⟩ := fallbackScan_mem hxmem
          obtain ⟨hdig, hpos⟩ := rowOfLine_pos hr
          exact ⟨ln, hr, hdig, hpos⟩

/-- Witness for C2 (amended) on concrete documents for both parser paths and
for the dropping rule. -/
theorem claim_C2_witness :
    (∃ t ∈ c2GoodDoc.tables, ∃ pos_raw,
      get_cell (tableHeader t) c2GoodRow.raw [sPOS] = some pos_raw ∧
      isDigits pos_raw = true ∧ c2GoodRow.pos = natOfDigits pos_raw) ∧
    (∃ ln, rowOfLine ln = some ⟨0, "21".data, some "Cooper Webb".data, "0 21 Cooper Webb".data⟩ ∧
      isDigits (ln.takeWhile Char.isDigit) = true ∧
      (0 : Nat) = natOfDigits (ln.takeWhile Char.isDigit)) ∧
    parseRow (tableHeader ⟨[ .tr [ "POS".data, "RIDER".data ] ]⟩) [ "DNF".data, "q".data ] =
      none := by
  refine ⟨claim_C2.1 c2GoodDoc c2GoodRow (by decide),
    ?_, claim_C2.2.2 _ _ ?_⟩
  · have h := claim_C2.2.1 c2ZeroFallbackDoc
      ⟨0, "21".data, some "Cooper Webb".data, "0 21 Cooper Webb".data⟩ (by decide)
    exact h
  · intro v hv
    rw [show get_cell (tableHeader ⟨[ .tr [ "POS".data, "RIDER".data ] ]⟩)
      (([ "DNF".data, "q".data ] : List Text).map normalize_ws) [sPOS] = some "DNF".data from by
        decide] at hv
    obtain rfl := Option.some_inj.mp hv
    decide

/-! ### C10: invariants of table-path rows -/

/-- C10: every row of the table scan has non-empty raw cells; there is a
scanned table whose header maps `"POS"` to an index inside the row, the cell
there is a digit string whose value is the row's `pos`; and every present
named field is a non-empty string drawn from the row's raw cells. -/
theorem claim_C10 :
    ∀ (doc : Document) (rows : List TableRow) (r : TableRow),
      scanTables doc.tables = some rows → r ∈ rows →
      r.raw ≠ [] ∧
      (∃ t ∈ doc.tables, sPOS ∈ tableHeader t ∧
        ∃ i, colMap (tableHeader t) sPOS = some i ∧ i < r.raw.length ∧
          isDigits (r.raw.getD i []) = true ∧ r.pos = natOfDigits (r.raw.getD i [])) ∧
      (∀ v, r.number = some v → v ≠ [] ∧ v ∈ r.raw) ∧
      (∀ v, r.rider = some v → v ≠ [] ∧ v ∈ r.raw) ∧
      (∀ v, r.bike = some v → v ≠ [] ∧ v ∈ r.raw) ∧
      (∀ v, r.best_lap = some v → v ≠ [] ∧ v ∈ r.raw) ∧
      (∀ v, r.time = some v → v ≠ [] ∧ v ∈ r.raw) ∧
      (∀ v, r.gap = some v → v ≠ [] ∧ v ∈ r.raw) ∧
      (∀ v, r.points = some v → v ≠ [] ∧ v ∈ r.raw) := by
  intro doc rows r hscan hmem
  obtain ⟨t, ht, hpos, hrows, _⟩ := scanTables_some hscan
  rw [hrows] at hmem
  obtain ⟨tr, _, hrow⟩ := List.mem_filterMap.mp hmem
  obtain ⟨hraw, hne, ⟨pos_raw, hget, hdig, hposv⟩, hnum, hrid, hbike, hbl, htime, hgap, hpts⟩ :=
    parseRow_some hrow
  have hupper : toUpperT sPOS = sPOS := by decide
  obtain ⟨_, n, hn, i, hi, hlt, hval⟩ := get_cell_some hget
  obtain rfl : n = sPOS := List.mem_singleton.mp hn
  have hg : r.raw.getD i [] = r.raw.get ⟨i, hlt⟩ := by
    rw [List.getD_eq_getElem _ _ hlt]
    rfl
  refine ⟨hne, ⟨t, ht, hpos, i, by rw [← hupper]; exact hi, hlt, ?_, ?_⟩,
    fun v hv => get_cell_mem (hnum ▸ hv), fun v hv => get_cell_mem (hrid ▸ hv),
    fun v hv => get_cell_mem (hbike ▸ hv), fun v hv => get_cell_mem (hbl ▸ hv),
    fun v hv => get_cell_mem (htime ▸ hv), fun v hv => get_cell_mem (hgap ▸ hv),
    fun v hv => get_cell_mem (hpts ▸ hv)⟩
  · rw [hg, ← hval]
    exact hdig
  · rw [hg, ← hval]
    exact hposv

/-! ### C8: `extract_query_param` -/

theorem qsGet_qsInsert (d : List (Text × List Text)) (k v : Text) (k' : Text) :
    qsGet (qsInsert d k v) k' =
      if k' = k then some ((qsGet d k).getD [] ++ [v]) else qsGet d k' := by
  induction d with
  | nil =>
    by_cases h : k' = k
    · rw [if_pos h]
      show (if k = k' then some [v] else qsGet [] k') = _
      rw [if_pos h.symm]
      rfl
    · rw [if_neg h]
      show (if k = k' then some [v] else qsGet [] k') = qsGet [] k'
      rw [if_neg (fun he => h he.symm)]
  | cons p rest ih =>
    obtain ⟨k0, vs0⟩ := p
    rw [qsInsert]
    by_cases h0 : k0 = k
    · rw [if_pos h0]
      by_cases h : k' = k
      · rw [if_pos h, qsGet, if_pos (h0.trans h.symm), qsGet, if_pos h0]
        rfl
      · rw [if_neg h, qsGet, if_neg (fun he => h (he.symm.trans h0)), qsGet,
          if_neg (fun he => h (he.symm.trans h0))]
    · rw [if_neg h0]
      by_cases h : k' = k
      · rw [if_pos h, qsGet, if_neg (fun he => h0 (he.trans h)), ih, if_pos h, qsGet,
          if_neg h0]
      · rw [if_neg h, qsGet]
        by_cases h0' : k0 = k'
        · rw [if_pos h0', qsGet, if_pos h0']
        · rw [if_neg h0', ih, if_neg h, qsGet, if_neg h0']

theorem qsGet_parse_qs_foldl (pairs : List (Text × Text)) (d : List (Text × List Text))
    (k : Text) :
    qsGet (pairs.foldl (fun d p => qsInsert d p.1 p.2) d) k =
      match qsGet d k with
      | some vs => some (vs ++ valuesOf k pairs)
      | none => if valuesOf k pairs = [] then none else some (valuesOf k pairs) := by
  induction pairs generalizing d with
  | nil =>
    cases h : qsGet d k with
    | none =>
      show qsGet d k = _
      rw [h]
      rfl
    | some vs =>
      show qsGet d k = _
      rw [h]
      show some vs = some (vs ++ valuesOf k [])
      rw [show valuesOf k [] = [] from rfl, List.append_nil]
  | cons p rest ih =>
    obtain ⟨k0, v0⟩ := p
    rw [List.foldl_cons, ih]
    by_cases h0 : k = k0
    · subst h0
      have hval : valuesOf k ((k, v0) :: rest) = v0 :: valuesOf k rest := by
        unfold valuesOf
        rw [List.filterMap_cons,
          show (if ((k, v0) : Text × Text).1 = k then some v0 else none) = some v0 from by
            rw [if_pos rfl]]
      rw [qsGet_qsInsert _ _ _ _, if_pos rfl, hval]
      cases hd : qsGet d k with
      | none => simp
      | some vs => simp
    · have hval : valuesOf k ((k0, v0) :: rest) = valuesOf k rest := by
        unfold valuesOf
        rw [List.filterMap_cons,
          show (if ((k0, v0) : Text × Text).1 = k then some v0 else none) = none from by
            rw [if_neg (fun he => h0 he.symm)]]
      rw [qsGet_qsInsert _ _ _ _, if_neg h0, hval]

theorem valuesOf_head (k : Text) (pairs : List (Text × Text)) :
    (valuesOf k pairs).head? = (pairs.find? (fun p => decide (p.1 = k))).map (fun p => p.2) := by
  induction pairs with
  | nil => rfl
  | cons p rest ih =>
    obtain ⟨k0, v0⟩ := p
    unfold valuesOf
    rw [List.filterMap_cons]
    by_cases h0 : k0 = k
    · rw [show (if ((k0, v0) : Text × Text).1 = k then some v0 else none) = some v0 from by
        rw [if_pos h0], List.find?_cons_of_pos _ (by simp [h0])]
      rfl
    · rw [show (if ((k0, v0) : Text × Text).1 = k then some v0 else none) = none from by
        rw [if_neg h0], List.find?_cons_of_neg _ (by simp [h0])]
      exact ih

theorem qsGet_parse_qs (qs k : Text) :
    qsGet (parse_qs qs) k =
      (if valuesOf k (parse_qsl qs) = [] then none else some (valuesOf k (parse_qsl qs))) := by
  unfold parse_qs
  rw [qsGet_parse_qs_foldl]
  rfl

theorem parse_qs_values_ne_nil {qs k : Text} {vs : List Text}
    (h : qsGet (parse_qs qs) k = some vs) : vs ≠ [] := by
  rw [qsGet_parse_qs] at h
  by_cases he : valuesOf k (parse_qsl qs) = []
  · rw [if_pos he] at h
    exact Option.noConfusion h
  · rw [if_neg he] at h
    rw [← Option.some_inj.mp h]
    exact he

theorem listGetE_ok {α : Type} (l : List α) (i : Nat) (h : i < l.length) :
    listGetE l i = .ok (l.get ⟨i, h⟩) := by
  induction l generalizing i with
  | nil => exact absurd h (Nat.not_lt_zero i)
  | cons a rest ih =>
    cases i with
    | zero => rfl
    | succ j => exact ih j (Nat.lt_of_succ_lt_succ h)

/-- C8: `extract_query_param` never raises (every raised error inside the
`try` body, in particular the `ValueError` of `urlparse` on mismatched IPv6
brackets, is caught and mapped to `None`); on a parsable URL it returns the
first value of the named query parameter, `None` when the parameter is
absent; on an unparsable URL it returns `None`. -/
theorem claim_C8 :
    (∀ url key : Text, extract_query_paramE url key = .ok (extract_query_param url key)) ∧
    (∀ url key : Text, ∀ p : UrlParts, urlsplitE url = .ok p →
      extract_query_param url key =
        ((parse_qsl p.query).find? (fun pr => decide (pr.1 = key))).map (fun pr => pr.2)) ∧
    (∀ url key : Text, ∀ e : PyErr, urlsplitE url = .error e →
      extract_query_param url key = none) := by
  refine ⟨?_, ?_, ?_⟩
  · intro url key
    unfold extract_query_paramE extract_query_param_body extract_query_param
    cases hs : urlsplitE url with
    | error e => rfl
    | ok p =>
      cases hq : qsGet (parse_qs p.query) key with
      | none => simp [hq]
      | some vs =>
        obtain ⟨v, vs', rfl⟩ : ∃ v vs', vs = v :: vs' := by
          cases vs with
          | nil => exact absurd rfl (parse_qs_values_ne_nil hq)
          | cons v vs' => exact ⟨v, vs', rfl⟩
        simp [hq, listGetE]
  · intro url key p hs
    unfold extract_query_param
    rw [hs]
    show (match qsGet (parse_qs p.query) key with
      | some vals => vals.head?
      | none => none) = _
    rw [qsGet_parse_qs]
    by_cases he : valuesOf key (parse_qsl p.query) = []
    · rw [if_pos he, ← valuesOf_head, he]
      rfl
    · rw [if_neg he, ← valuesOf_head]
  · intro url key e hs
    unfold extract_query_param
    rw [hs]

/-- Witness for C8 at a URL with repeated and missing parameters and at an
unparsable URL. -/
theorem claim_C8_witness :
    extract_query_param "https://x.example/a?p=1&p=2&q=z".data "p".data =
      ((parse_qsl "p=1&p=2&q=z".data).find?
        (fun pr => decide (pr.1 = "p".data))).map (fun pr => pr.2) ∧
    extract_query_param "https://x.example/a?p=1&p=2&q=z".data "missing".data =
      ((parse_qsl "p=1&p=2&q=z".data).find?
        (fun pr => decide (pr.1 = "missing".data))).map (fun pr => pr.2) ∧
    extract_query_param "http://[::1/x?id=5".data "id".data = none :=
  ⟨claim_C8.2.1 _ _ ⟨ "https".data, "x.example".data, "/a".data, "p=1&p=2&q=z".data, []⟩
      rfl,
    claim_C8.2.1 _ _ ⟨ "https".data, "x.example".data, "/a".data, "p=1&p=2&q=z".data, []⟩
      rfl,
    claim_C8.2.2 _ _ PyErr.valueError rfl⟩

/-! ### C9: exception analysis -/

theorem pyIntE_ok {s : Text} (h : isDigits s = true) : pyIntE s = .ok (natOfDigits s) := by
  rw [pyIntE, if_pos h]

theorem get_cellE_eq (header cells : List Text) (names : List Text) :
    get_cellE header cells names = .ok (get_cell header cells names) := by
  induction names with
  | nil => rfl
  | cons n rest ih =>
    rw [get_cellE, get_cell]
    cases hc : colMap header (toUpperT n) with
    | none => exact ih
    | some i =>
      show (if i < cells.length then
          (match listGetE cells i with
           | .error e => .error e
           | .ok v => .ok (if v = [] then none else some v))
        else get_cellE header cells rest) =
        .ok (if h : i < cells.length then
          (if cells.get ⟨i, h⟩ = [] then none else some (cells.get ⟨i, h⟩))
        else get_cell header cells rest)
      by_cases hlt : i < cells.length
      · rw [if_pos hlt, dif_pos hlt, listGetE_ok cells i hlt]
      · rw [if_neg hlt, dif_neg hlt]
        exact ih

theorem parseRowE_eq (header tr : List Text) :
    parseRowE header tr = .ok (parseRow header tr) := by
  rw [parseRowE, parseRow]
  by_cases hc : tr.map normalize_ws = []
  · rw [if_pos hc, if_pos hc]
  · rw [if_neg hc, if_neg hc, get_cellE_eq]
    cases hg : get_cell header (tr.map normalize_ws) [sPOS] with
    | none => rfl
    | some pos_raw =>
      cases hd : isDigits pos_raw with
      | false => simp [hd]
      | true => simp [pyIntE, hd, get_cellE_eq]

theorem parseRowsE_eq (header : List Text) (trs : List (List Text)) :
    parseRowsE header trs = .ok (trs.filterMap (parseRow header)) := by
  induction trs with
  | nil => rfl
  | cons tr rest ih =>
    rw [parseRowsE, parseRowE_eq, ih, List.filterMap_cons]
    cases hr : parseRow header tr with
    | none => rfl
    | some r => rfl

theorem scanTablesE_eq (tables : List HtmlTable) :
    scanTablesE tables = .ok (scanTables tables) := by
  induction tables with
  | nil => rfl
  | cons t rest ih =>
    simp only [scanTablesE, scanTables]
    by_cases hcond : tableHeader t = [] ∨ sPOS ∉ tableHeader t
    · rw [if_pos hcond, if_pos hcond]
      exact ih
    · rw [if_neg hcond, if_neg hcond, parseRowsE_eq]
      show (if parseTable t = [] then scanTablesE rest else .ok (some (parseTable t))) =
        .ok (if parseTable t = [] then scanTables rest else some (parseTable t))
      by_cases hres : parseTable t = []
      · rw [if_pos hres, if_pos hres]
        exact ih
      · rw [if_neg hres, if_neg hres]

theorem rowOfLineE_eq (ln : Text) : rowOfLineE ln = .ok (rowOfLine ln) := by
  rw [rowOfLineE, rowOfLine]
  cases hm : matchRowLine ln with
  | none => rfl
  | some p =>
    obtain ⟨d, tok, rest⟩ := p
    have hdig := (matchRowLine_some hm).2
    simp [pyIntE, hdig]

theorem fallbackScanE_eq (lines : List Text) :
    fallbackScanE lines = .ok (fallbackScan lines) := by
  induction lines with
  | nil => rfl
  | cons ln rest ih =>
    rw [fallbackScanE, fallbackScan]
    by_cases hf : isFooterLine ln = true
    · rw [if_pos hf, if_pos hf]
    · rw [if_neg hf, if_neg hf, rowOfLineE_eq, ih]
      cases hr : rowOfLine ln with
      | none => rfl
      | some r => rfl

theorem parse_race_results_text_fallbackE_eq (doc : Document) :
    parse_race_results_text_fallbackE doc = .ok (parse_race_results_text_fallback doc) := by
  simp only [parse_race_results_text_fallbackE, parse_race_results_text_fallback]
  by_cases ht : doc.text = []
  · rw [if_pos ht, if_pos ht]
  · rw [if_neg ht, if_neg ht]
    cases hi : findHeaderIdx (fallbackLines doc.text) with
    | none => rfl
    | some i => exact fallbackScanE_eq _

theorem parse_race_results_table_firstE_eq (doc : Document) :
    parse_race_results_table_firstE doc = .ok (parse_race_results_table_first doc) := by
  rw [parse_race_results_table_firstE, parse_race_results_table_first, scanTablesE_eq]
  cases hs : scanTables doc.tables with
  | some rs => rfl
  | none => simp [parse_race_results_text_fallbackE_eq]

theorem splitFirst_append_sep {sep : Char} {pre : Text} (h : sep ∉ pre) (post : Text) :
    splitFirst sep (pre ++ sep :: post) = some (pre, post) := by
  induction pre with
  | nil => rw [List.nil_append, splitFirst, if_pos rfl]
  | cons c cs ih =>
    rw [List.cons_append, splitFirst,
      if_neg (fun he => h (by rw [← he]; exact List.mem_cons_self c cs)),
      ih (fun hm => h (List.mem_cons_of_mem c hm))]
    rfl

theorem splitScheme_https (R : Text) :
    splitScheme ( "https".data ++ ':' :: R) = some ( "https".data, R) := by
  unfold splitScheme
  rw [splitFirst_append_sep (by decide) R]
  rfl

theorem takeWhile_append_all {p : Char → Bool} :
    ∀ {a b : Text}, (∀ c ∈ a, p c = true) →
    (b = [] ∨ ∃ c cs, b = c :: cs ∧ p c = false) → (a ++ b).takeWhile p = a := by
  intro a
  induction a with
  | nil =>
    intro b _ hb
    rw [List.nil_append]
    rcases hb with rfl | ⟨c, cs, rfl, hc⟩
    · rfl
    · rw [List.takeWhile_cons_of_neg (by rw [hc]; exact Bool.false_ne_true)]
  | cons x xs ih =>
    intro b ha hb
    rw [List.cons_append, List.takeWhile_cons_of_pos (ha x (List.mem_cons_self x xs)),
      ih (fun c hc => ha c (List.mem_cons_of_mem x hc)) hb]

theorem splitNetloc_slashes (n tail : Text) (hall : ∀ c ∈ n, notNetlocDelim c = true)
    (htail : tail = [] ∨ ∃ c cs, tail = c :: cs ∧ notNetlocDelim c = false) :
    (splitNetloc ('/' :: '/' :: (n ++ tail))).1 = n := by
  unfold splitNetloc
  rw [if_pos (by rfl)]
  show (n ++ tail).takeWhile notNetlocDelim = n
  exact takeWhile_append_all hall htail

theorem urlsplitCore_netloc {u sch rest2 : Text} (hs : splitScheme u = some (sch, rest2)) :
    (urlsplitCore u).netloc = (splitNetloc rest2).1 := by
  unfold urlsplitCore
  rw [hs]

theorem urlsplitCore_netloc_all (u : Text) :
    ∀ c ∈ (urlsplitCore u).netloc, notNetlocDelim c = true := by
  have heq : (urlsplitCore u).netloc = (splitNetloc (match splitScheme u with
      | some p => p
      | none => (([] : Text), u)).2).1 := rfl
  rw [heq]
  unfold splitNetloc
  split
  · intro c hc
    exact List.mem_takeWhile_imp hc
  · intro c hc
    exact absurd hc (List.not_mem_nil c)

theorem urlsplitE_ok_parts {u : Text} {p : UrlParts} (h : urlsplitE u = .ok p) :
    p = urlsplitCore u ∧ netlocOk p.netloc = true := by
  rw [urlsplitE] at h
  by_cases hok : netlocOk (urlsplitCore u).netloc = true
  · rw [if_pos hok] at h
    have he := Except.ok.inj h
    exact ⟨he.symm, he ▸ hok⟩
  · rw [if_neg hok] at h
    exact Except.noConfusion h

theorem urlunsplit_shape (n path q f : Text) (hn : n ≠ []) :
    ∃ tail, urlunsplit ⟨ "https".data, n, path, q, f⟩ =
        "https".data ++ ':' :: '/' :: '/' :: (n ++ tail) ∧
      (tail = [] ∨ ∃ c cs, tail = c :: cs ∧ notNetlocDelim c = false) := by
  refine ⟨(if path ≠ [] ∧ path.head? ≠ some '/' then '/' :: path else path) ++
    ((if q.isEmpty then [] else '?' :: q) ++ (if f.isEmpty then [] else '#' :: f)), ?_, ?_⟩
  · have hne : (!n.isEmpty) = true := by
      cases n with
      | nil => exact absurd rfl hn
      | cons c cs => rfl
    have hsc : (!( "https".data : Text).isEmpty) = true := rfl
    simp only [urlunsplit, hne, hsc, Bool.true_or, if_true]
    by_cases hq : q.isEmpty <;> by_cases hf : f.isEmpty <;>
      simp [hq, hf, List.append_assoc]
  · set adj := (if path ≠ [] ∧ path.head? ≠ some '/' then '/' :: path else path) with hadj
    have hadjs : adj = [] ∨ adj.head? = some '/' := by
      rw [hadj]
      by_cases hp : path ≠ [] ∧ path.head? ≠ some '/'
      · rw [if_pos hp]
        exact Or.inr rfl
      · rw [if_neg hp]
        by_cases hpe : path = []
        · exact Or.inl hpe
        · rcases Classical.em (path.head? = some '/') with hh | hh
          · exact Or.inr hh
          · exact absurd ⟨hpe, hh⟩ hp
    rcases hadjs with h1 | h1
    · rw [h1, List.nil_append]
      by_cases hq : q.isEmpty
      · rw [if_pos hq, List.nil_append]
        by_cases hf : f.isEmpty
        · rw [if_pos hf]
          exact Or.inl rfl
        · rw [if_neg hf]
          exact Or.inr ⟨'#', f, rfl, by decide⟩
      · rw [if_neg hq, List.cons_append]
        exact Or.inr ⟨'?', _, rfl, by decide⟩
    · obtain ⟨c, cs, hc⟩ : ∃ c cs, adj = c :: cs := by
        cases hadj2 : adj with
        | nil => rw [hadj2] at h1; exact Option.noConfusion h1
        | cons c cs => exact ⟨c, cs, rfl⟩
      have hcc : c = '/' := by
        rw [hc] at h1
        exact Option.some_inj.mp h1
      rw [hc, hcc, List.cons_append]
      exact Or.inr ⟨'/', _, rfl, by decide⟩

theorem urlsplitE_unsplit_https (n path q f : Text) (hn : n ≠ [])
    (hall : ∀ c ∈ n, notNetlocDelim c = true) (hok : netlocOk n = true) :
    ∃ p, urlsplitE (urlunsplit ⟨ "https".data, n, path, q, f⟩) = .ok p := by
  obtain ⟨tail, heq, htail⟩ := urlunsplit_shape n path q f hn
  refine ⟨urlsplitCore (urlunsplit ⟨ "https".data, n, path, q, f⟩), ?_⟩
  rw [urlsplitE, if_pos ?hcond]
  case hcond =>
    rw [heq, urlsplitCore_netloc (splitScheme_https ('/' :: '/' :: (n ++ tail))),
      splitNetloc_slashes n tail hall htail]
    exact hok

theorem urljoinParts_resplit (bp : UrlParts) {u : Text} {up : UrlParts}
    (hscheme : bp.scheme = "https".data) (hn : bp.netloc ≠ [])
    (hall : ∀ c ∈ bp.netloc, notNetlocDelim c = true) (hok : netlocOk bp.netloc = true)
    (hu : urlsplitE u = .ok up) :
    ∃ p, urlsplitE (urljoinParts bp up u) = .ok p := by
  rw [urljoinParts]
  by_cases h1 : (if up.scheme = [] then bp.scheme else up.scheme) ≠ bp.scheme
  · rw [if_pos h1]
    exact ⟨up, hu⟩
  · rw [if_neg h1]
    have hs : (if up.scheme = [] then bp.scheme else up.scheme) = bp.scheme := not_not.mp h1
    obtain ⟨hup, hupok⟩ := urlsplitE_ok_parts hu
    by_cases h2 : up.netloc ≠ []
    · rw [if_pos h2, hs, hscheme]
      refine urlsplitE_unsplit_https up.netloc up.path up.query up.fragment h2 ?_ hupok
      rw [hup]
      exact urlsplitCore_netloc_all u
    · rw [if_neg h2]
      by_cases h3 : up.path = []
      · rw [if_pos h3, hs, hscheme]
        exact urlsplitE_unsplit_https bp.netloc bp.path _ up.fragment hn hall hok
      · rw [if_neg h3, hs, hscheme]
        exact urlsplitE_unsplit_https bp.netloc _ up.query up.fragment hn hall hok

theorem urljoinE_base_eq {base : Text} {bp : UrlParts} (hb : urlsplitE base = .ok bp)
    (hbne : base ≠ []) {u : Text} (hune : u ≠ [])
    (hok : netlocOk (urlsplitCore u).netloc = true) :
    urljoinE base u = .ok (urljoinParts bp (urlsplitCore u) u) ∧
    urljoin base u = urljoinParts bp (urlsplitCore u) u := by
  have hsplit : urlsplitE u = .ok (urlsplitCore u) := by
    rw [urlsplitE, if_pos hok]
  have h1 : urljoinE base u = .ok (urljoinParts bp (urlsplitCore u) u) := by
    rw [urljoinE, if_neg hbne, if_neg hune, hb, hsplit]
  exact ⟨h1, by rw [urljoin, h1]⟩

theorem eventOfHrefE_eq (a : Anchor) (H : Text)
    (hre : urlsplitE H = .ok (urlsplitCore H)) :
    eventOfHrefE a H = .ok (eventOfHref a H) := by
  simp only [eventOfHrefE, eventOfHref, hre]
  cases hqp : qsGet (parse_qs (urlsplitCore H).query) sP with
  | none =>
    simp only [hqp, qFirstD]
    rw [if_pos (show toLowerT (pyStrip ([] : Text)) ≠ sViewEvent from by decide),
      if_pos (show toLowerT (pyStrip ([] : Text)) ≠ sViewEvent from by decide)]
  | some vals =>
    obtain ⟨v, vs, rfl⟩ : ∃ v vs, vals = v :: vs := by
      cases vals with
      | nil => exact absurd rfl (parse_qs_values_ne_nil hqp)
      | cons v vs => exact ⟨v, vs, rfl⟩
    simp only [hqp, qFirstD, listGetE, List.headD_cons]
    by_cases hpv : toLowerT (pyStrip v) ≠ sViewEvent
    · rw [if_pos hpv, if_pos hpv]
    · rw [if_neg hpv, if_neg hpv]
      cases hqi : qsGet (parse_qs (urlsplitCore H).query) sId with
      | none => simp [hqi, qFirstOpt]
      | some vals2 =>
        obtain ⟨w, ws, rfl⟩ : ∃ w ws, vals2 = w :: ws := by
          cases vals2 with
          | nil => exact absurd rfl (parse_qs_values_ne_nil hqi)
          | cons w ws => exact ⟨w, ws, rfl⟩
        simp only [hqi, qFirstOpt, listGetE, List.head?_cons]
        by_cases hw : w = []
        · rw [if_pos hw, if_pos hw]
        · rw [if_neg hw, if_neg hw]

theorem eventOfAnchorE_eq (a : Anchor) (h : anchorParses a) :
    eventOfAnchorE a = .ok (eventOfAnchor a) := by
  simp only [eventOfAnchorE, eventOfAnchor]
  by_cases hhr : pyStrip a.href = []
  · rw [if_pos hhr, if_pos hhr]
  · rw [if_neg hhr, if_neg hhr]
    have hok : netlocOk (urlsplitCore (pyStrip a.href)).netloc = true := h.resolve_left hhr
    obtain ⟨hjoinE, hjoinP⟩ := @urljoinE_base_eq EVENTS_URL
      ⟨ "https".data, "results.supercrosslive.com".data, "/events/".data, [], []⟩
      rfl (by decide) (pyStrip a.href) hhr hok
    obtain ⟨p2, hre⟩ := urljoinParts_resplit
      ⟨ "https".data, "results.supercrosslive.com".data, "/events/".data, [], []⟩
      rfl (by decide) (by decide) (by decide)
      (show urlsplitE (pyStrip a.href) = .ok (urlsplitCore (pyStrip a.href)) from by
        rw [urlsplitE, if_pos hok])
    obtain ⟨hp2, _⟩ := urlsplitE_ok_parts hre
    subst hp2
    rw [hjoinE, hjoinP]
    exact eventOfHrefE_eq a _ hre

theorem sessionOfHrefE_eq (a : Anchor) (H : Text)
    (hre : urlsplitE H = .ok (urlsplitCore H)) :
    sessionOfHrefE a H = .ok (sessionOfHref a H) := by
  simp only [sessionOfHrefE, sessionOfHref, hre]
  by_cases hpre : (!hasSub H sViewRaceResult) = true
  · rw [if_pos hpre, if_pos hpre]
  · rw [if_neg hpre, if_neg hpre]
    cases hqp : qsGet (parse_qs (urlsplitCore H).query) sP with
    | none =>
      simp only [hqp, qFirstD]
      rw [if_pos (show toLowerT (pyStrip ([] : Text)) ≠ sViewRaceResult from by decide),
        if_pos (show toLowerT (pyStrip ([] : Text)) ≠ sViewRaceResult from by decide)]
    | some vals =>
      obtain ⟨v, vs, rfl⟩ : ∃ v vs, vals = v :: vs := by
        cases vals with
        | nil => exact absurd rfl (parse_qs_values_ne_nil hqp)
        | cons v vs => exact ⟨v, vs, rfl⟩
      simp only [hqp, qFirstD, listGetE, List.headD_cons]
      by_cases hpv : toLowerT (pyStrip v) ≠ sViewRaceResult
      · rw [if_pos hpv, if_pos hpv]
      · rw [if_neg hpv, if_neg hpv]
        cases hqi : qsGet (parse_qs (urlsplitCore H).query) sId with
        | none => simp [hqi, qFirstOpt]
        | some vals2 =>
          obtain ⟨w, ws, rfl⟩ : ∃ w ws, vals2 = w :: ws := by
            cases vals2 with
            | nil => exact absurd rfl (parse_qs_values_ne_nil hqi)
            | cons w ws => exact ⟨w, ws, rfl⟩
          simp only [hqi, qFirstOpt, listGetE, List.head?_cons]
          by_cases hw : w = []
          · rw [if_pos hw, if_pos hw]
          · rw [if_neg hw, if_neg hw]

theorem sessionOfAnchorE_eq (a : Anchor) (h : anchorParses a) :
    sessionOfAnchorE a = .ok (sessionOfAnchor a) := by
  simp only [sessionOfAnchorE, sessionOfAnchor]
  by_cases hhr : pyStrip a.href = []
  · rw [if_pos hhr, if_pos hhr]
  · rw [if_neg hhr, if_neg hhr]
    have hok : netlocOk (urlsplitCore (pyStrip a.href)).netloc = true := h.resolve_left hhr
    have hsplit : urlsplitE (pyStrip a.href) = .ok (urlsplitCore (pyStrip a.href)) := by
      rw [urlsplitE, if_pos hok]
    by_cases hq : startsWithT [ '?' ] (pyStrip a.href) = true
    · obtain ⟨hjoinE, hjoinP⟩ := @urljoinE_base_eq RESULTS_ROOT
        ⟨ "https".data, "results.supercrosslive.com".data, "/results/".data, [], []⟩
        rfl (by decide) (pyStrip a.href) hhr hok
      obtain ⟨p2, hre⟩ := urljoinParts_resplit
        ⟨ "https".data, "results.supercrosslive.com".data, "/results/".data, [], []⟩
        rfl (by decide) (by decide) (by decide) hsplit
      obtain ⟨hp2, _⟩ := urlsplitE_ok_parts hre
      subst hp2
      rw [resolve_session_hrefE, resolve_session_href, if_pos hq, if_pos hq, hjoinE, hjoinP]
      exact sessionOfHrefE_eq a _ hre
    · obtain ⟨hjoinE, hjoinP⟩ := @urljoinE_base_eq (BASE ++ [ '/' ])
        ⟨ "https".data, "results.supercrosslive.com".data, [ '/' ], [], []⟩
        rfl (by decide) (pyStrip a.href) hhr hok
      obtain ⟨p2, hre⟩ := urljoinParts_resplit
        ⟨ "https".data, "results.supercrosslive.com".data, [ '/' ], [], []⟩
        rfl (by decide) (by decide) (by decide) hsplit
      obtain ⟨hp2, _⟩ := urlsplitE_ok_parts hre
      subst hp2
      rw [resolve_session_hrefE, resolve_session_href, if_neg hq, if_neg hq, hjoinE, hjoinP]
      exact sessionOfHrefE_eq a _ hre

/-- Witness for C10 on the concrete one-row document. -/
theorem claim_C10_witness :
    c2GoodRow.raw ≠ [] ∧
    (∃ t ∈ c2GoodDoc.tables, sPOS ∈ tableHeader t ∧
      ∃ i, colMap (tableHeader t) sPOS = some i ∧ i < c2GoodRow.raw.length ∧
        isDigits (c2GoodRow.raw.getD i []) = true ∧
        c2GoodRow.pos = natOfDigits (c2GoodRow.raw.getD i [])) ∧
    (∀ v, c2GoodRow.number = some v → v ≠ [] ∧ v ∈ c2GoodRow.raw) ∧
    (∀ v, c2GoodRow.rider = some v → v ≠ [] ∧ v ∈ c2GoodRow.raw) ∧
    (∀ v, c2GoodRow.bike = some v → v ≠ [] ∧ v ∈ c2GoodRow.raw) ∧
    (∀ v, c2GoodRow.best_lap = some v → v ≠ [] ∧ v ∈ c2GoodRow.raw) ∧
    (∀ v, c2GoodRow.time = some v → v ≠ [] ∧ v ∈ c2GoodRow.raw) ∧
    (∀ v, c2GoodRow.gap = some v → v ≠ [] ∧ v ∈ c2GoodRow.raw) ∧
    (∀ v, c2GoodRow.points = some v → v ≠ [] ∧ v ∈ c2GoodRow.raw) :=
  claim_C10 c2GoodDoc [c2GoodRow] c2GoodRow (by decide) (List.mem_singleton.mpr rfl)

/-- Witness for C7 at concrete lines and documents covering every
hypothesis. -/
theorem claim_C7_witness :
    parse_race_results_text_fallback c7NoHeaderDoc = [] ∧
    parse_race_results_text_fallback c7ExampleDoc =
      fallbackScan ((fallbackLines c7ExampleDoc.text).drop 1) ∧
    fallbackScan [ "GENERATED BY X".data, "1 2 a b".data ] = [] ∧
    fallbackScan ( "1 21 Cooper Webb Yamaha".data :: [ "noise".data ]) =
      ⟨1, "21".data, some "Cooper Webb".data, "1 21 Cooper Webb Yamaha".data⟩ ::
        fallbackScan [ "noise".data ] ∧
    fallbackScan ( "noise here".data :: [ "2 94 Ken Roczen Suzuki".data ]) =
      fallbackScan [ "2 94 Ken Roczen Suzuki".data ] :=
  ⟨claim_C7.1 c7NoHeaderDoc (by decide),
    (claim_C7.2.1 c7ExampleDoc 0 (by decide)).1,
    claim_C7.2.2.1 _ _ (by decide),
    claim_C7.2.2.2.1 _ _ _ (by decide) (by decide),
    claim_C7.2.2.2.2.1 _ _ (by decide) (by decide)⟩


theorem foundEventsE_eq (anchors : List Anchor) (h : ∀ a ∈ anchors, anchorParses a) :
    foundEventsE anchors = .ok (anchors.filterMap eventOfAnchor) := by
  induction anchors with
  | nil => rfl
  | cons a rest ih =>
    simp only [foundEventsE]
    rw [eventOfAnchorE_eq a (h a (List.mem_cons_self a rest)),
      ih (fun x hx => h x (List.mem_cons_of_mem a hx)), List.filterMap_cons]
    cases eventOfAnchor a with
    | none => rfl
    | some e => rfl

theorem discover_eventsE_eq (anchors : List Anchor) (h : ∀ a ∈ anchors, anchorParses a) :
    discover_eventsE anchors = .ok (discover_events anchors) := by
  rw [discover_eventsE, foundEventsE_eq anchors h]
  rfl

theorem foundSessionsE_eq (anchors : List Anchor) (h : ∀ a ∈ anchors, anchorParses a) :
    foundSessionsE anchors = .ok (anchors.filterMap sessionOfAnchor) := by
  induction anchors with
  | nil => rfl
  | cons a rest ih =>
    simp only [foundSessionsE]
    rw [sessionOfAnchorE_eq a (h a (List.mem_cons_self a rest)),
      ih (fun x hx => h x (List.mem_cons_of_mem a hx)), List.filterMap_cons]
    cases sessionOfAnchor a with
    | none => rfl
    | some s => rfl

theorem discover_sessionsE_eq (anchors : List Anchor) (h : ∀ a ∈ anchors, anchorParses a) :
    discover_sessionsE anchors = .ok (discover_sessions anchors) := by
  rw [discover_sessionsE, foundSessionsE_eq anchors h]
  rfl

/-- Claim C9 (corrected).  The two result parsers return normally on every
document, however malformed: the explicit-exception models
`parse_race_results_table_firstE` and `parse_race_results_text_fallbackE`
always return `.ok` of the pure result.  The discovery functions return
normally provided every anchor's stripped href is a parsable URL (balanced
IPv6 brackets in the netloc, `anchorParses`) — but not unconditionally, see
the counterexample.  On shape issues the results are empty rather than
errors: zero matching anchors give the empty event and session lists, and a
document with no usable table and no header line gives the empty row list on
both parser paths. -/
theorem claim_C9 :
    (∀ doc : Document,
      parse_race_results_table_firstE doc = .ok (parse_race_results_table_first doc)) ∧
    (∀ doc : Document,
      parse_race_results_text_fallbackE doc = .ok (parse_race_results_text_fallback doc)) ∧
    (∀ anchors : List Anchor, (∀ a ∈ anchors, anchorParses a) →
      discover_eventsE anchors = .ok (discover_events anchors) ∧
      discover_sessionsE anchors = .ok (discover_sessions anchors)) ∧
    (∀ anchors : List Anchor, (∀ a ∈ anchors, eventOfAnchor a = none) →
      discover_events anchors = []) ∧
    (∀ anchors : List Anchor, (∀ a ∈ anchors, sessionOfAnchor a = none) →
      discover_sessions anchors = []) ∧
    (∀ doc : Document, scanTables doc.tables = none →
      findHeaderIdx (fallbackLines doc.text) = none →
      parse_race_results_table_first doc = []) ∧
    (∀ doc : Document, findHeaderIdx (fallbackLines doc.text) = none →
      parse_race_results_text_fallback doc = []) := by
  refine ⟨parse_race_results_table_firstE_eq, parse_race_results_text_fallbackE_eq,
    ?_, ?_, ?_, ?_, ?_⟩
  · intro anchors h
    exact ⟨discover_eventsE_eq anchors h, discover_sessionsE_eq anchors h⟩
  · intro anchors hev
    rw [discover_events, List.filterMap_eq_nil_iff.mpr hev]
    rfl
  · intro anchors hse
    rw [discover_sessions, List.filterMap_eq_nil_iff.mpr hse]
    rfl
  · intro doc hnt hnh
    rw [parse_race_results_table_first, hnt]
    show (parse_race_results_text_fallback doc).map ResultRow.fallback = []
    simp only [parse_race_results_text_fallback]
    by_cases ht : doc.text = []
    · rw [if_pos ht]
      rfl
    · rw [if_neg ht, hnh]
      rfl
  · intro doc hnh
    simp only [parse_race_results_text_fallback]
    by_cases ht : doc.text = []
    · rw [if_pos ht]
    · rw [if_neg ht, hnh]

/-- The anchor whose href `"http://[::1"` makes `urljoin` raise `ValueError`
inside both discovery loops: no exception handler surrounds them, so the
exception escapes, refuting the unconditional no-exception claim of C9 for
`discover_events` and `discover_sessions`. -/
theorem claim_C9_counterexample :
    discover_eventsE [⟨ "http://[::1".data, "x".data⟩] = .error PyErr.valueError ∧
    discover_sessionsE [⟨ "http://[::1".data, "x".data⟩] = .error PyErr.valueError :=
  ⟨rfl, rfl⟩

/-- Witness for C9 at a concrete empty-shape document and a concrete
non-matching anchor. -/
theorem claim_C9_witness :
    parse_race_results_table_firstE ⟨[], "no results on this page".data⟩ =
      .ok (parse_race_results_table_first ⟨[], "no results on this page".data⟩) ∧
    parse_race_results_text_fallbackE ⟨[], "no results on this page".data⟩ =
      .ok (parse_race_results_text_fallback ⟨[], "no results on this page".data⟩) ∧
    (discover_eventsE [⟨ "/somewhere/else".data, "Link".data⟩] =
      .ok (discover_events [⟨ "/somewhere/else".data, "Link".data⟩]) ∧
     discover_sessionsE [⟨ "/somewhere/else".data, "Link".data⟩] =
      .ok (discover_sessions [⟨ "/somewhere/else".data, "Link".data⟩])) ∧
    discover_events [⟨ "/somewhere/else".data, "Link".data⟩] = [] ∧
    discover_sessions [⟨ "/somewhere/else".data, "Link".data⟩] = [] ∧
    parse_race_results_table_first ⟨[], "no results on this page".data⟩ = [] ∧
    parse_race_results_text_fallback ⟨[], "no results on this page".data⟩ = [] :=
  ⟨claim_C9.1 _, claim_C9.2.1 _,
    claim_C9.2.2.1 [⟨ "/somewhere/else".data, "Link".data⟩] (by decide),
    claim_C9.2.2.2.1 _ (by decide),
    claim_C9.2.2.2.2.1 _ (by decide),
    claim_C9.2.2.2.2.2.1 _ rfl rfl,
    claim_C9.2.2.2.2.2.2 _ rfl⟩

end Supercross
